import Mathlib

/-!
# Custody-manager backend: a shallow embedding of the custody ledger core

This development embeds the data model and the engine operations of the
custody-manager backend (`backend/app/models/*.py`, `backend/app/services/*.py`)
as executable Lean definitions, and proves the specified properties about them.

Conventions of the embedding:
* database rows are Lean structures mirroring the SQLAlchemy models;
* a database state is a `DB` record of row lists plus a monotone id counter,
  which also serves as the creation timestamp (`created_at`), matching the
  role of `created_at` as the sole ordering key;
* every service function becomes a pure function `DB → Except SvcError (result × DB)`;
  an `Except.error` models a raised `HTTPException` before `db.commit()`, so on
  failure no write persists (the caller keeps the old `DB`), which is exactly
  the single-transaction all-or-nothing behaviour of the source;
* the HTTP status codes of the source are mapped to the spec's error taxonomy
  at each raise site: 403 → `forbidden`, 404 → `notFound`, and the 400 sites to
  `invalidState` / `conflict` / `invalidInput` according to their meaning.
-/

namespace Custody

/-! ## Data model (src/backend/app/models) -/

/-- `UserRole` enum from `models/user.py`. -/
inductive UserRole
  | admin
  | armorer
  | coach
  | volunteer
  | parent
deriving DecidableEq, Repr

/-- `User` model from `models/user.py` (fields used by the services). -/
structure User where
  id : Nat
  name : String
  role : UserRole
  verified_adult : Bool
deriving DecidableEq, Repr

/-- `KitStatus` enum from `models/kit.py`. -/
inductive KitStatus
  | available
  | checked_out
  | in_maintenance
  | lost
deriving DecidableEq, Repr

/-- `Kit` model from `models/kit.py` (the fields the engine operations read or
write; the free-text `description` and the encrypted serial column are
untouched by every operation claimed here, and the model has no
`next_maintenance_date` column — see C8). -/
structure Kit where
  id : Nat
  code : String
  name : String
  status : KitStatus
  current_custodian_id : Option Nat
  current_custodian_name : Option String
deriving DecidableEq, Repr

/-- `CustodyEventType` enum from `models/custody_event.py`. -/
inductive CustodyEventType
  | checkout_onprem
  | checkout_offsite
  | checkin
  | transfer
  | lost
  | found
deriving DecidableEq, Repr

/-- `CustodyEvent` model from `models/custody_event.py`.  Dates are encoded as
integers (days), timestamps as the monotone counter of the `DB` state. -/
structure CustodyEvent where
  id : Nat
  event_type : CustodyEventType
  kit_id : Nat
  initiated_by_id : Nat
  initiated_by_name : String
  custodian_id : Option Nat
  custodian_name : String
  approved_by_id : Option Nat
  approved_by_name : Option String
  notes : Option String
  location_type : String
  expected_return_date : Option Int
  attestation_text : Option String
  attestation_signature : Option String
  attestation_timestamp : Option Nat
  attestation_ip_address : Option String
  created_at : Nat
deriving DecidableEq, Repr

/-- `ApprovalStatus` enum from `models/approval_request.py`. -/
inductive ApprovalStatus
  | pending
  | approved
  | denied
deriving DecidableEq, Repr

/-- `ApprovalRequest` model from `models/approval_request.py`. -/
structure ApprovalRequest where
  id : Nat
  kit_id : Nat
  requester_id : Nat
  requester_name : String
  custodian_id : Option Nat
  custodian_name : String
  status : ApprovalStatus
  approver_id : Option Nat
  approver_name : Option String
  approver_role : Option UserRole
  notes : Option String
  denial_reason : Option String
  attestation_text : Option String
  attestation_signature : Option String
  attestation_timestamp : Option Nat
  attestation_ip_address : Option String
  created_at : Nat
deriving DecidableEq, Repr

/-- `MaintenanceEvent` model from `models/maintenance_event.py`. -/
structure MaintenanceEvent where
  id : Nat
  kit_id : Nat
  opened_by_id : Nat
  opened_by_name : String
  closed_by_id : Option Nat
  closed_by_name : Option String
  notes : Option String
  parts_replaced : Option String
  round_count : Option Nat
  is_open : Bool
  next_maintenance_date : Option Int
  created_at : Nat
deriving DecidableEq, Repr

/-- Error taxonomy of spec section 7.  Each constructor corresponds to the HTTP
status raised at the matching site in the source: `forbidden` = 403,
`notFound` = 404, and the three 400-sites by meaning. -/
inductive SvcError
  | notFound
  | forbidden
  | invalidState
  | conflict
  | invalidInput
deriving DecidableEq, Repr

/-- The entity store: one list per table plus a monotone counter used both as
the next primary key and as the creation timestamp. -/
structure DB where
  kits : List Kit
  events : List CustodyEvent
  requests : List ApprovalRequest
  maint : List MaintenanceEvent
  nextId : Nat
deriving DecidableEq, Repr

/-- The empty store. -/
def DB.init : DB :=
  { kits := [], events := [], requests := [], maint := [], nextId := 0 }

/-- `db.query(Kit).filter(Kit.code == kit_code).first()`. -/
def findKit (db : DB) (kit_code : String) : Option Kit :=
  db.kits.find? (fun k => k.code = kit_code)

/-- `db.query(Kit).filter(Kit.id == kit_id).first()`. -/
def findKitById (db : DB) (kit_id : Nat) : Option Kit :=
  db.kits.find? (fun k => k.id = kit_id)

/-- Persisting an ORM-level mutation of a kit row: the row with the same id is
replaced, everything else is untouched. -/
def putKit (kits : List Kit) (k2 : Kit) : List Kit :=
  kits.map (fun k => if k.id = k2.id then k2 else k)

/-! ## Custody Engine (src/backend/app/services/custody_service.py) -/

/-- Translation of `checkout_kit_onprem` (custody_service.py lines 15-89).
Role check, kit lookup, status check, then one new `CustodyEvent` plus the kit
projection update, committed together. -/
def checkout_kit_onprem (db : DB) (kit_code : String) (custodian_name : String)
    (initiated_by_user : User) (custodian_id : Option Nat)
    (notes : Option String) (expected_return_date : Option Int) :
    Except SvcError (CustodyEvent × Kit × DB) :=
  let allowed_roles : List UserRole := [.coach, .armorer, .admin]
  if initiated_by_user.role ∉ allowed_roles then
    .error .forbidden
  else
    match findKit db kit_code with
    | none => .error .notFound
    | some kit =>
      if kit.status ≠ .available then
        .error .invalidState
      else
        let ev : CustodyEvent :=
          { id := db.nextId
            event_type := .checkout_onprem
            kit_id := kit.id
            initiated_by_id := initiated_by_user.id
            initiated_by_name := initiated_by_user.name
            custodian_id := custodian_id
            custodian_name := custodian_name
            approved_by_id := none
            approved_by_name := none
            notes := notes
            location_type := "on_premises"
            expected_return_date := expected_return_date
            attestation_text := none
            attestation_signature := none
            attestation_timestamp := none
            attestation_ip_address := none
            created_at := db.nextId }
        let kit2 : Kit :=
          { kit with
            status := .checked_out
            current_custodian_id := custodian_id
            current_custodian_name := some custodian_name }
        .ok (ev, kit2,
          { db with
            kits := putKit db.kits kit2
            events := db.events ++ [ev]
            nextId := db.nextId + 1 })

/-- Translation of `transfer_kit_custody` (custody_service.py lines 92-166).
Note: as shipped, lines 125-126 of the source repeat the `detail=` keyword in
one `HTTPException(...)` call, a Python syntax error that stops the whole
module from importing; the translation below renders the unambiguous intended
semantics of the function body, in which that slip only concerns the message
text of the 403 branch.  The import failure itself is recorded against C6. -/
def transfer_kit_custody (db : DB) (kit_code new_custodian_name : String)
    (initiated_by_user : User) (new_custodian_id : Option Nat)
    (notes : Option String) :
    Except SvcError (CustodyEvent × Kit × String × DB) :=
  let allowed_roles : List UserRole := [.coach, .armorer, .admin]
  if initiated_by_user.role ∉ allowed_roles then
    .error .forbidden
  else
    match findKit db kit_code with
    | none => .error .notFound
    | some kit =>
      if kit.status ≠ .checked_out then
        .error .invalidState
      else
        let previous_custodian := kit.current_custodian_name.getD "Unknown"
        let ev : CustodyEvent :=
          { id := db.nextId
            event_type := .transfer
            kit_id := kit.id
            initiated_by_id := initiated_by_user.id
            initiated_by_name := initiated_by_user.name
            custodian_id := new_custodian_id
            custodian_name := new_custodian_name
            approved_by_id := none
            approved_by_name := none
            notes := notes
            location_type := "on_premises"
            expected_return_date := none
            attestation_text := none
            attestation_signature := none
            attestation_timestamp := none
            attestation_ip_address := none
            created_at := db.nextId }
        let kit2 : Kit :=
          { kit with
            current_custodian_id := new_custodian_id
            current_custodian_name := some new_custodian_name }
        .ok (ev, kit2, previous_custodian,
          { db with
            kits := putKit db.kits kit2
            events := db.events ++ [ev]
            nextId := db.nextId + 1 })

/-- Translation of `report_kit_lost` (custody_service.py lines 169-240).
The source also contains a duplicated role-check block (lines 194-204, both the
old string-list form and the enum form, another syntax slip); both variants
gate on the same role set {armorer, admin} because `UserRole` is a `str` enum. -/
def report_kit_lost (db : DB) (kit_code : String) (initiated_by_user : User)
    (notes : Option String) :
    Except SvcError (CustodyEvent × Kit × DB) :=
  let allowed_roles : List UserRole := [.armorer, .admin]
  if initiated_by_user.role ∉ allowed_roles then
    .error .forbidden
  else
    match findKit db kit_code with
    | none => .error .notFound
    | some kit =>
      if kit.status = .lost then
        .error .invalidState
      else
        let ev : CustodyEvent :=
          { id := db.nextId
            event_type := .lost
            kit_id := kit.id
            initiated_by_id := initiated_by_user.id
            initiated_by_name := initiated_by_user.name
            custodian_id := kit.current_custodian_id
            custodian_name := kit.current_custodian_name.getD "Unknown"
            approved_by_id := none
            approved_by_name := none
            notes := notes
            location_type := "unknown"
            expected_return_date := none
            attestation_text := none
            attestation_signature := none
            attestation_timestamp := none
            attestation_ip_address := none
            created_at := db.nextId }
        let kit2 : Kit := { kit with status := .lost }
        .ok (ev, kit2,
          { db with
            kits := putKit db.kits kit2
            events := db.events ++ [ev]
            nextId := db.nextId + 1 })

/-- Translation of `report_kit_found` (custody_service.py lines 243-310). -/
def report_kit_found (db : DB) (kit_code : String) (initiated_by_user : User)
    (notes : Option String) :
    Except SvcError (CustodyEvent × Kit × DB) :=
  let allowed_roles : List UserRole := [.armorer, .admin]
  if initiated_by_user.role ∉ allowed_roles then
    .error .forbidden
  else
    match findKit db kit_code with
    | none => .error .notFound
    | some kit =>
      if kit.status ≠ .lost then
        .error .invalidState
      else
        let ev : CustodyEvent :=
          { id := db.nextId
            event_type := .found
            kit_id := kit.id
            initiated_by_id := initiated_by_user.id
            initiated_by_name := initiated_by_user.name
            custodian_id := none
            custodian_name := "System"
            approved_by_id := none
            approved_by_name := none
            notes := notes
            location_type := "on_premises"
            expected_return_date := none
            attestation_text := none
            attestation_signature := none
            attestation_timestamp := none
            attestation_ip_address := none
            created_at := db.nextId }
        let kit2 : Kit :=
          { kit with
            status := .available
            current_custodian_id := none
            current_custodian_name := none }
        .ok (ev, kit2,
          { db with
            kits := putKit db.kits kit2
            events := db.events ++ [ev]
            nextId := db.nextId + 1 })

/-- Modelled from the spec: no check-in operation ships anywhere under src —
only the `CustodyEventType.checkin` enum value (models/custody_event.py line
11) and raw test rows use that type.  Spec sections 2 and 4.2 require a
Custody Engine check-in realizing the `checked_out → available` leg by writing
one CustodyEvent and updating the kit projection.  Modelled with the same
shape as the sibling operations: role coach/armorer/admin, requires
`kit.status = checked_out`, writes a `checkin` event, returns the kit to
`available` and clears the custodian. -/
def checkin_kit (db : DB) (kit_code : String) (initiated_by_user : User)
    (notes : Option String) :
    Except SvcError (CustodyEvent × Kit × DB) :=
  let allowed_roles : List UserRole := [.coach, .armorer, .admin]
  if initiated_by_user.role ∉ allowed_roles then
    .error .forbidden
  else
    match findKit db kit_code with
    | none => .error .notFound
    | some kit =>
      if kit.status ≠ .checked_out then
        .error .invalidState
      else
        let ev : CustodyEvent :=
          { id := db.nextId
            event_type := .checkin
            kit_id := kit.id
            initiated_by_id := initiated_by_user.id
            initiated_by_name := initiated_by_user.name
            custodian_id := none
            custodian_name := "System"
            approved_by_id := none
            approved_by_name := none
            notes := notes
            location_type := "on_premises"
            expected_return_date := none
            attestation_text := none
            attestation_signature := none
            attestation_timestamp := none
            attestation_ip_address := none
            created_at := db.nextId }
        let kit2 : Kit :=
          { kit with
            status := .available
            current_custodian_id := none
            current_custodian_name := none }
        .ok (ev, kit2,
          { db with
            kits := putKit db.kits kit2
            events := db.events ++ [ev]
            nextId := db.nextId + 1 })

/-! ## Approval Engine (src/backend/app/services/approval_service.py) -/

/-- Persist a mutated approval-request row (same-id replacement). -/
def putRequest (requests : List ApprovalRequest) (r2 : ApprovalRequest) :
    List ApprovalRequest :=
  requests.map (fun r => if r.id = r2.id then r2 else r)

/-- Translation of `create_offsite_checkout_request` (approval_service.py lines
15-90).  Note the shipped service takes no attestation arguments and stores no
attestation fields (they stay NULL on the created row); its caller
(endpoints/custody.py lines 180-191) passes `attestation_signature`,
`attestation_accepted`, `request_ip` and `expected_return_date`, which this
signature rejects — recorded against C4. -/
def create_offsite_checkout_request (db : DB) (kit_code custodian_name : String)
    (requester_user : User) (custodian_id : Option Nat) (notes : Option String) :
    Except SvcError (ApprovalRequest × Kit × DB) :=
  if requester_user.verified_adult = false then
    .error .forbidden
  else
    match findKit db kit_code with
    | none => .error .notFound
    | some kit =>
      if kit.status ≠ .available then
        .error .invalidState
      else
        match db.requests.find?
            (fun r => r.kit_id = kit.id ∧ r.status = .pending) with
        | some _ => .error .conflict
        | none =>
          let req : ApprovalRequest :=
            { id := db.nextId
              kit_id := kit.id
              requester_id := requester_user.id
              requester_name := requester_user.name
              custodian_id := custodian_id
              custodian_name := custodian_name
              status := .pending
              approver_id := none
              approver_name := none
              approver_role := none
              notes := notes
              denial_reason := none
              attestation_text := none
              attestation_signature := none
              attestation_timestamp := none
              attestation_ip_address := none
              created_at := db.nextId }
          .ok (req, kit,
            { db with
              requests := db.requests ++ [req]
              nextId := db.nextId + 1 })

/-- Rendering of a `UserRole` value, for the note text built on approval. -/
def roleText : UserRole → String
  | .admin => "admin"
  | .armorer => "armorer"
  | .coach => "coach"
  | .volunteer => "volunteer"
  | .parent => "parent"

/-- The note string built at approval_service.py line 179:
`f"Approved by {approver_user.name} ({approver_user.role}). " + (approval_request.notes or "")`. -/
def approvalNote (approver : User) (request_notes : Option String) : String :=
  "Approved by " ++ approver.name ++ " (" ++ roleText approver.role ++ "). "
    ++ request_notes.getD ""

/-- Translation of `approve_or_deny_offsite_request` (approval_service.py lines
93-211).  `denial_reason` is tested with Python truthiness (`if not
denial_reason`), so both `None` and the empty string are rejected. -/
def approve_or_deny_offsite_request (db : DB) (approval_request_id : Nat)
    (approver_user : User) (approve : Bool) (denial_reason : Option String) :
    Except SvcError (ApprovalRequest × Option CustodyEvent × Kit × DB) :=
  let allowed_roles : List UserRole := [.armorer, .coach, .admin]
  if approver_user.role ∉ allowed_roles then
    .error .forbidden
  else
    match db.requests.find? (fun r => r.id = approval_request_id) with
    | none => .error .notFound
    | some approval_request =>
      if approval_request.status ≠ .pending then
        .error .conflict
      else
        match findKitById db approval_request.kit_id with
        | none => .error .notFound
        | some kit =>
          if approve then
            if kit.status ≠ .available then
              .error .invalidState
            else
              let req2 : ApprovalRequest :=
                { approval_request with
                  status := .approved
                  approver_id := some approver_user.id
                  approver_name := some approver_user.name
                  approver_role := some approver_user.role }
              let ev : CustodyEvent :=
                { id := db.nextId
                  event_type := .checkout_offsite
                  kit_id := kit.id
                  initiated_by_id := approval_request.requester_id
                  initiated_by_name := approval_request.requester_name
                  custodian_id := approval_request.custodian_id
                  custodian_name := approval_request.custodian_name
                  approved_by_id := none
                  approved_by_name := none
                  notes := some (approvalNote approver_user approval_request.notes)
                  location_type := "off_site"
                  expected_return_date := none
                  attestation_text := none
                  attestation_signature := none
                  attestation_timestamp := none
                  attestation_ip_address := none
                  created_at := db.nextId }
              let kit2 : Kit :=
                { kit with
                  status := .checked_out
                  current_custodian_id := approval_request.custodian_id
                  current_custodian_name := some approval_request.custodian_name }
              .ok (req2, some ev, kit2,
                { db with
                  kits := putKit db.kits kit2
                  events := db.events ++ [ev]
                  requests := putRequest db.requests req2
                  nextId := db.nextId + 1 })
          else
            match denial_reason with
            | none => .error .invalidInput
            | some reason =>
              if reason = "" then
                .error .invalidInput
              else
                let req2 : ApprovalRequest :=
                  { approval_request with
                    status := .denied
                    approver_id := some approver_user.id
                    approver_name := some approver_user.name
                    approver_role := some approver_user.role
                    denial_reason := some reason }
                .ok (req2, none, kit,
                  { db with requests := putRequest db.requests req2 })

/-! ## Maintenance Engine (src/backend/app/services/maintenance_service.py) -/

/-- Persist a mutated maintenance-event row (same-id replacement). -/
def putMaint (maint : List MaintenanceEvent) (m2 : MaintenanceEvent) :
    List MaintenanceEvent :=
  maint.map (fun m => if m.id = m2.id then m2 else m)

/-- Python truthiness of an optional string (`if s:`). -/
def truthy : Option String → Bool
  | none => false
  | some s => !(s = "")

/-- The note-merging of `close_maintenance` lines 150-155: a truthy new note is
appended to a truthy existing note with a "Close Notes:" separator. -/
def mergeCloseNotes (old new : Option String) : Option String :=
  if truthy new then
    if truthy old then some (old.getD "" ++ "\n\nClose Notes: " ++ new.getD "")
    else new
  else old

/-- The parts-replaced merging of `close_maintenance` lines 157-162. -/
def mergeParts (old new : Option String) : Option String :=
  if truthy new then
    if truthy old then some (old.getD "" ++ "\n\n" ++ new.getD "")
    else new
  else old

/-- Translation of `open_maintenance` (maintenance_service.py lines 14-81). -/
def open_maintenance (db : DB) (kit_code : String) (opened_by_user : User)
    (notes parts_replaced : Option String) (round_count : Option Nat) :
    Except SvcError (MaintenanceEvent × Kit × DB) :=
  let allowed_roles : List UserRole := [.armorer, .admin]
  if opened_by_user.role ∉ allowed_roles then
    .error .forbidden
  else
    match findKit db kit_code with
    | none => .error .notFound
    | some kit =>
      if kit.status = .in_maintenance then
        .error .invalidState
      else
        let m : MaintenanceEvent :=
          { id := db.nextId
            kit_id := kit.id
            opened_by_id := opened_by_user.id
            opened_by_name := opened_by_user.name
            closed_by_id := none
            closed_by_name := none
            notes := notes
            parts_replaced := parts_replaced
            round_count := round_count
            is_open := true
            next_maintenance_date := none
            created_at := db.nextId }
        let kit2 : Kit := { kit with status := .in_maintenance }
        .ok (m, kit2,
          { db with
            kits := putKit db.kits kit2
            maint := db.maint ++ [m]
            nextId := db.nextId + 1 })

/-- Translation of `close_maintenance` (maintenance_service.py lines 84-176).
The same maintenance row is mutated (closer set, `is_open := false`, notes and
parts appended); the kit returns to `available` with the custodian cleared. -/
def close_maintenance (db : DB) (kit_code : String) (closed_by_user : User)
    (notes parts_replaced : Option String) (round_count : Option Nat) :
    Except SvcError (MaintenanceEvent × Kit × DB) :=
  let allowed_roles : List UserRole := [.armorer, .admin]
  if closed_by_user.role ∉ allowed_roles then
    .error .forbidden
  else
    match findKit db kit_code with
    | none => .error .notFound
    | some kit =>
      if kit.status ≠ .in_maintenance then
        .error .invalidState
      else
        match db.maint.find? (fun m => m.kit_id = kit.id ∧ m.is_open = true) with
        | none => .error .invalidState
        | some open_event =>
          let m2 : MaintenanceEvent :=
            { open_event with
              closed_by_id := some closed_by_user.id
              closed_by_name := some closed_by_user.name
              is_open := false
              notes := mergeCloseNotes open_event.notes notes
              parts_replaced := mergeParts open_event.parts_replaced parts_replaced
              round_count := match round_count with
                | some v => some v
                | none => open_event.round_count }
          let kit2 : Kit :=
            { kit with
              status := .available
              current_custodian_id := none
              current_custodian_name := none }
          .ok (m2, kit2,
            { db with
              kits := putKit db.kits kit2
              maint := putMaint db.maint m2 })

/-! ## The append-only ledger enforcement (models/custody_event.py lines 80-106) -/

/-- A pending ORM operation against the `custody_events` table. -/
inductive LedgerOp
  | insert (e : CustodyEvent)
  | update (id : Nat) (f : CustodyEvent → CustodyEvent)
  | delete (id : Nat)

/-- Flushing one ORM operation against the `custody_events` table.  The
`before_update` / `before_delete` listeners of models/custody_event.py raise
`ValueError` before any UPDATE or DELETE reaches the store, so only inserts
go through. -/
def flushLedger (tbl : List CustodyEvent) : LedgerOp → Except String (List CustodyEvent)
  | .insert e => .ok (tbl ++ [e])
  | .update _ _ =>
      .error "Cannot update custody events: Custody events are append-only and immutable (CUSTODY-015). Create a new event instead."
  | .delete _ =>
      .error "Cannot delete custody events: Custody events are append-only and immutable (CUSTODY-015). They form a permanent audit trail."

/-! ## System step relation and reachability -/

/-- One engine operation applied successfully to the store.  `create_kit`
models the administrative creation of a kit row (out of the custody core, but
needed so that reachable states contain kits at all); it only appends a fresh
`available` kit. -/
inductive Step : DB → DB → Prop
  | create_kit (db : DB) (code name : String) :
      Step db { db with
                kits := db.kits ++ [{ id := db.nextId, code := code, name := name,
                                      status := .available,
                                      current_custodian_id := none,
                                      current_custodian_name := none }]
                nextId := db.nextId + 1 }
  | checkout (db : DB) (kit_code custodian_name : String) (u : User)
      (cid : Option Nat) (notes : Option String) (erd : Option Int)
      (ev : CustodyEvent) (kit2 : Kit) (db2 : DB) :
      checkout_kit_onprem db kit_code custodian_name u cid notes erd = .ok (ev, kit2, db2) →
      Step db db2
  | transfer (db : DB) (kit_code new_name : String) (u : User)
      (cid : Option Nat) (notes : Option String)
      (ev : CustodyEvent) (kit2 : Kit) (prev : String) (db2 : DB) :
      transfer_kit_custody db kit_code new_name u cid notes = .ok (ev, kit2, prev, db2) →
      Step db db2
  | lost (db : DB) (kit_code : String) (u : User) (notes : Option String)
      (ev : CustodyEvent) (kit2 : Kit) (db2 : DB) :
      report_kit_lost db kit_code u notes = .ok (ev, kit2, db2) →
      Step db db2
  | found (db : DB) (kit_code : String) (u : User) (notes : Option String)
      (ev : CustodyEvent) (kit2 : Kit) (db2 : DB) :
      report_kit_found db kit_code u notes = .ok (ev, kit2, db2) →
      Step db db2
  | checkin (db : DB) (kit_code : String) (u : User) (notes : Option String)
      (ev : CustodyEvent) (kit2 : Kit) (db2 : DB) :
      checkin_kit db kit_code u notes = .ok (ev, kit2, db2) →
      Step db db2
  | offsite_request (db : DB) (kit_code custodian_name : String) (u : User)
      (cid : Option Nat) (notes : Option String)
      (req : ApprovalRequest) (kit : Kit) (db2 : DB) :
      create_offsite_checkout_request db kit_code custodian_name u cid notes = .ok (req, kit, db2) →
      Step db db2
  | decide (db : DB) (rid : Nat) (u : User) (approve : Bool)
      (reason : Option String) (req : ApprovalRequest) (mev : Option CustodyEvent)
      (kit : Kit) (db2 : DB) :
      approve_or_deny_offsite_request db rid u approve reason = .ok (req, mev, kit, db2) →
      Step db db2
  | maint_open (db : DB) (kit_code : String) (u : User)
      (notes parts : Option String) (rc : Option Nat)
      (m : MaintenanceEvent) (kit2 : Kit) (db2 : DB) :
      open_maintenance db kit_code u notes parts rc = .ok (m, kit2, db2) →
      Step db db2
  | maint_close (db : DB) (kit_code : String) (u : User)
      (notes parts : Option String) (rc : Option Nat)
      (m : MaintenanceEvent) (kit2 : Kit) (db2 : DB) :
      close_maintenance db kit_code u notes parts rc = .ok (m, kit2, db2) →
      Step db db2

/-- States reachable from the empty store by engine operations. -/
inductive Reachable : DB → Prop
  | init : Reachable DB.init
  | step (db db2 : DB) : Reachable db → Step db db2 → Reachable db2

/-- Number of CustodyEvent rows recorded for a kit. -/
def eventCount (db : DB) (kit_id : Nat) : Nat :=
  db.events.countP (fun e => e.kit_id = kit_id)

/-- Number of `pending` ApprovalRequest rows for a kit. -/
def pendingCount (db : DB) (kit_id : Nat) : Nat :=
  db.requests.countP (fun r => r.kit_id = kit_id ∧ r.status = .pending)

/-- The per-store invariant carried through `Reachable`: request ids are fresh
below the counter and duplicate-free, and every kit has at most one pending
request. -/
def ReqInv (db : DB) : Prop :=
  (∀ r ∈ db.requests, r.id < db.nextId)
  ∧ (db.requests.map (fun r => r.id)).Nodup
  ∧ ∀ k, pendingCount db k ≤ 1

/-! ## Concrete fixtures for closed scenario conjuncts and witnesses -/

/-- A coach actor. -/
def coachCai : User := { id := 1, name := "Cai", role := .coach, verified_adult := true }

/-- An armorer actor. -/
def armorerAmy : User := { id := 2, name := "Amy", role := .armorer, verified_adult := true }

/-- A verified-adult parent actor. -/
def parentPat : User := { id := 3, name := "Pat", role := .parent, verified_adult := true }

/-- An available kit. -/
def kitK1 : Kit :=
  { id := 10, code := "K1", name := "Kit One", status := .available,
    current_custodian_id := none, current_custodian_name := none }

/-- A checked-out kit. -/
def kitK2 : Kit :=
  { id := 11, code := "K2", name := "Kit Two", status := .checked_out,
    current_custodian_id := some 4, current_custodian_name := some "Alice" }

/-- A pending off-site request for `kitK1`. -/
def reqPending : ApprovalRequest :=
  { id := 15, kit_id := 10, requester_id := 3, requester_name := "Pat",
    custodian_id := none, custodian_name := "Child", status := .pending,
    approver_id := none, approver_name := none, approver_role := none,
    notes := none, denial_reason := none,
    attestation_text := none, attestation_signature := none,
    attestation_timestamp := none, attestation_ip_address := none,
    created_at := 14 }

/-- Store with one available and one checked-out kit. -/
def dbScenario : DB :=
  { kits := [kitK1, kitK2], events := [], requests := [], maint := [], nextId := 20 }

/-- Store with an available kit and a pending request for it. -/
def dbDecide : DB :=
  { kits := [kitK1], events := [], requests := [reqPending], maint := [], nextId := 20 }

/-- Projection used to refute C3 on a concrete run: from a successful approval,
the request's recorded approver id together with the written event's
`approved_by_id` / `approved_by_name` and its type. -/
def decideOutcomeC3 :
    Option (Option Nat × Option Nat × Option String × CustodyEventType) :=
  match approve_or_deny_offsite_request dbDecide 15 armorerAmy true none with
  | .ok (req2, some ev, _, _) =>
      some (req2.approver_id, ev.approved_by_id, ev.approved_by_name, ev.event_type)
  | _ => none

/-- Projection used against C4 on a concrete run: the attestation columns and
status of the request created by the shipped `create_offsite_checkout_request`
(which accepts no attestation input at all). -/
def createOutcomeC4 : Option (Option String × Option String × Option Nat × ApprovalStatus) :=
  match create_offsite_checkout_request dbScenario "K1" "Child" parentPat none none with
  | .ok (req, _, _) =>
      some (req.attestation_text, req.attestation_signature,
            req.attestation_timestamp, req.status)
  | .error _ => none

/-- Scenario for C10: open then close maintenance on the checked-out `kitK2`;
returns the final kit status, custodian, the full custody-event table, and the
closed row's flag. -/
def maintScenario : Option (KitStatus × Option Nat × Option String × List CustodyEvent × Bool) :=
  match open_maintenance dbScenario "K2" armorerAmy none none none with
  | .error _ => none
  | .ok (_, _, db2) =>
    match close_maintenance db2 "K2" armorerAmy none none none with
    | .error _ => none
    | .ok (m2, kit2, db3) =>
        some (kit2.status, kit2.current_custodian_id, kit2.current_custodian_name,
              db3.events, m2.is_open)

/-!
## Field Cipher (src/backend/app/core/encryption.py)

The shipped `FieldEncryption` wraps `cryptography.fernet.Fernet`.  A Fernet
token is `0x80 ‖ timestamp(8 bytes) ‖ iv(16 bytes) ‖ AES128-CBC(key, iv,
PKCS7(message)) ‖ HMAC(32 bytes)`; decryption checks the version byte and the
tag, CBC-decrypts and strips the padding.  The embedding works on bytes as
`List Nat`; the PKCS7 padding, the CBC chaining and the token layout are
concrete, while the AES block permutation and the HMAC are parameters
(`FernetPrimitives`), constrained exactly by the block-cipher contract the
library guarantees (`FernetPrimitives.Sound`).  The nondeterminism of
`Fernet.encrypt` (fresh random iv and current time per call) appears as the
`ts`/`iv` arguments.  The `str` ↔ `bytes` boundary (`.encode("utf-8")` /
`.decode("utf-8")` in `FieldEncryption.encrypt`/`decrypt`) is a concrete
UTF-8 codec.
-/

/-- Bytewise xor of two equal-length blocks. -/
def xorBytes (a b : List Nat) : List Nat :=
  List.zipWith (fun x y => x ^^^ y) a b

/-- Split a byte string into 16-byte blocks (its length is a multiple of 16
after PKCS7 padding). -/
def chunks16 (bs : List Nat) : List (List Nat) :=
  if h : bs = [] then [] else bs.take 16 :: chunks16 (bs.drop 16)
termination_by bs.length
decreasing_by
  simp only [List.length_drop]
  have : 0 < bs.length := List.length_pos.mpr h
  omega

/-- PKCS7 padding to 16-byte blocks: append n copies of n where
n = 16 - len mod 16 (always between 1 and 16). -/
def pkcs7Pad (bs : List Nat) : List Nat :=
  bs ++ List.replicate (16 - bs.length % 16) (16 - bs.length % 16)

/-- PKCS7 unpadding: the last byte n must satisfy 1 ≤ n ≤ 16 and the last n
bytes must all equal n; they are stripped. -/
def pkcs7Unpad (bs : List Nat) : Option (List Nat) :=
  match bs.getLast? with
  | none => none
  | some n =>
      if 1 ≤ n ∧ n ≤ 16 ∧ n ≤ bs.length
          ∧ bs.drop (bs.length - n) = List.replicate n n then
        some (bs.take (bs.length - n))
      else none

/-- CBC encryption: each plaintext block is xored with the previous
ciphertext block (initially the iv) before the block cipher. -/
def cbcEncrypt (encBlock : List Nat → List Nat) (prev : List Nat) :
    List (List Nat) → List (List Nat)
  | [] => []
  | b :: bs =>
      let c := encBlock (xorBytes prev b)
      c :: cbcEncrypt encBlock c bs

/-- CBC decryption, inverse chaining of `cbcEncrypt`. -/
def cbcDecrypt (decBlock : List Nat → List Nat) (prev : List Nat) :
    List (List Nat) → List (List Nat)
  | [] => []
  | c :: cs => xorBytes prev (decBlock c) :: cbcDecrypt decBlock c cs

/-- The abstract primitives behind one Fernet key: the AES block pair and the
HMAC tag function. -/
structure FernetPrimitives where
  encBlock : List Nat → List Nat
  decBlock : List Nat → List Nat
  hmac : List Nat → List Nat

/-- The library contract on the primitives: the block pair is a 16-byte
permutation and its inverse, and tags have 32 bytes. -/
def FernetPrimitives.Sound (p : FernetPrimitives) : Prop :=
  (∀ b, b.length = 16 → p.decBlock (p.encBlock b) = b)
  ∧ (∀ b, b.length = 16 → (p.encBlock b).length = 16)
  ∧ ∀ x, (p.hmac x).length = 32

/-- Fernet token construction (`Fernet.encrypt`): version byte 0x80, the 8
timestamp bytes, the 16-byte iv, the CBC ciphertext of the padded message,
then the 32-byte HMAC of everything before it. -/
def fernetEncrypt (p : FernetPrimitives) (ts iv msg : List Nat) : List Nat :=
  let body :=
    0x80 :: (ts ++ iv ++ (cbcEncrypt p.encBlock iv (chunks16 (pkcs7Pad msg))).flatten)
  body ++ p.hmac body

/-- Fernet token parsing and decryption (`Fernet.decrypt`): split off and
check the 32-byte tag, check the version byte, CBC-decrypt, strip the
padding; any failure is the library's `InvalidToken` (surfacing as the
`DecryptionError` of the spec). -/
def fernetDecrypt (p : FernetPrimitives) (token : List Nat) : Option (List Nat) :=
  let body := token.take (token.length - 32)
  let tag := token.drop (token.length - 32)
  if tag ≠ p.hmac body then none
  else
    match body with
    | [] => none
    | v :: rest =>
        if v ≠ 0x80 then none
        else
          let iv := (rest.drop 8).take 16
          let ct := (rest.drop 8).drop 16
          if ct.length % 16 = 0 ∧ ct.length ≠ 0 then
            pkcs7Unpad (cbcDecrypt p.decBlock iv (chunks16 ct)).flatten
          else none

/-- UTF-8 encoding of one code point (`str.encode("utf-8")`, one character). -/
def utf8Char (c : Nat) : List Nat :=
  if c < 0x80 then [c]
  else if c < 0x800 then [0xC0 + c / 0x40, 0x80 + c % 0x40]
  else if c < 0x10000 then
    [0xE0 + c / 0x1000, 0x80 + c / 0x40 % 0x40, 0x80 + c % 0x40]
  else
    [0xF0 + c / 0x40000, 0x80 + c / 0x1000 % 0x40, 0x80 + c / 0x40 % 0x40,
     0x80 + c % 0x40]

/-- The code points of a Python `str`. -/
def strCodes (s : String) : List Nat := s.data.map (fun c => c.toNat)

/-- `str.encode("utf-8")`. -/
def utf8Encode (s : String) : List Nat := (strCodes s).flatMap utf8Char

/- UTF-8 decoding to code points (`bytes.decode("utf-8")`, first stage): the
lead byte selects how many continuation bytes follow; `utf8Tail1/2/3`
consume them. -/
mutual

/-- Decode a UTF-8 byte string into code points. -/
def utf8Decode : List Nat → Option (List Nat)
  | [] => some []
  | b :: bs =>
    if b < 0x80 then (utf8Decode bs).map (fun r => b :: r)
    else if b < 0xC0 then none
    else if b < 0xE0 then utf8Tail1 b bs
    else if b < 0xF0 then utf8Tail2 b bs
    else utf8Tail3 b bs
termination_by bs => bs.length

/-- One continuation byte (2-byte sequences). -/
def utf8Tail1 (b : Nat) : List Nat → Option (List Nat)
  | b2 :: bs2 =>
      if 0x80 ≤ b2 ∧ b2 < 0xC0 then
        (utf8Decode bs2).map (fun r => ((b - 0xC0) * 0x40 + (b2 - 0x80)) :: r)
      else none
  | [] => none
termination_by bs => bs.length

/-- Two continuation bytes (3-byte sequences). -/
def utf8Tail2 (b : Nat) : List Nat → Option (List Nat)
  | b2 :: b3 :: bs3 =>
      if (0x80 ≤ b2 ∧ b2 < 0xC0) ∧ (0x80 ≤ b3 ∧ b3 < 0xC0) then
        (utf8Decode bs3).map
          (fun r => ((b - 0xE0) * 0x1000 + (b2 - 0x80) * 0x40 + (b3 - 0x80)) :: r)
      else none
  | _ => none
termination_by bs => bs.length

/-- Three continuation bytes (4-byte sequences). -/
def utf8Tail3 (b : Nat) : List Nat → Option (List Nat)
  | b2 :: b3 :: b4 :: bs4 =>
      if (0x80 ≤ b2 ∧ b2 < 0xC0) ∧ (0x80 ≤ b3 ∧ b3 < 0xC0)
          ∧ (0x80 ≤ b4 ∧ b4 < 0xC0) then
        (utf8Decode bs4).map
          (fun r => ((b - 0xF0) * 0x40000 + (b2 - 0x80) * 0x1000
                      + (b3 - 0x80) * 0x40 + (b4 - 0x80)) :: r)
      else none
  | _ => none
termination_by bs => bs.length

end

/-- A code point back to a `Char` (the second stage of `bytes.decode`). -/
def charOfCode (n : Nat) : Option Char :=
  if n.isValidChar then some (Char.ofNat n) else none

/-- Code points back to a string. -/
def strOfCodes : List Nat → Option String
  | [] => some ""
  | c :: rest =>
    match charOfCode c, strOfCodes rest with
    | some ch, some s => some (String.mk (ch :: s.data))
    | _, _ => none

/-- `FieldEncryption.encrypt` (encryption.py lines 129-144, also the
`encrypt_field` convenience wrapper): `None` maps to `None`, otherwise the
UTF-8 bytes are Fernet-encrypted into a token. -/
def encrypt_field (p : FernetPrimitives) (ts iv : List Nat) :
    Option String → Option (List Nat)
  | none => none
  | some s => some (fernetEncrypt p ts iv (utf8Encode s))

/-- `FieldEncryption.decrypt` (encryption.py lines 146-161, also the
`decrypt_field` convenience wrapper): `None` maps to `None` (inner `some
none`), otherwise the token is Fernet-decrypted and UTF-8-decoded; the outer
`none` is the raised `DecryptionError`, which propagates rather than
returning any fallback value. -/
def decrypt_field (p : FernetPrimitives) :
    Option (List Nat) → Option (Option String)
  | none => some none
  | some tok =>
    match fernetDecrypt p tok with
    | none => none
    | some bytes =>
      match utf8Decode bytes with
      | none => none
      | some codes =>
        match strOfCodes codes with
        | none => none
        | some s => some (some s)

/-- The identity block pair and a constant tag satisfy the primitive
contract; used to show the round-trip theorem is not vacuous. -/
def idPrimitives : FernetPrimitives :=
  { encBlock := fun b => b
    decBlock := fun b => b
    hmac := fun _ => List.replicate 32 0 }

/-- C2: `checkout_onprem` succeeds exactly when the actor's role is coach,
armorer or admin, the kit exists, and its status is `available`; on success it
writes one `checkout_onprem` / `on_premises` event, sets the kit to
`checked_out` with the given custodian, and touches nothing else; otherwise it
fails with `notFound`, `forbidden` or `invalidState`, and (the result being an
`Except.error` with no new state) nothing persists. -/
theorem C2_checkout_onprem_correct (db : DB) (kit_code custodian_name : String)
    (u : User) (cid : Option Nat) (notes : Option String) (erd : Option Int) :
    match checkout_kit_onprem db kit_code custodian_name u cid notes erd with
    | .ok (ev, kit2, db2) =>
        (u.role = .coach ∨ u.role = .armorer ∨ u.role = .admin)
        ∧ (∃ kit, findKit db kit_code = some kit ∧ kit.status = .available
            ∧ kit2 = { kit with
                        status := .checked_out
                        current_custodian_id := cid
                        current_custodian_name := some custodian_name })
        ∧ ev.event_type = .checkout_onprem
        ∧ ev.location_type = "on_premises"
        ∧ ev.custodian_id = cid
        ∧ ev.custodian_name = custodian_name
        ∧ kit2.status = .checked_out
        ∧ kit2.current_custodian_id = cid
        ∧ kit2.current_custodian_name = some custodian_name
        ∧ db2.events = db.events ++ [ev]
        ∧ db2.kits = putKit db.kits kit2
        ∧ db2.requests = db.requests
        ∧ db2.maint = db.maint
    | .error e =>
        (e = .forbidden ∧ ¬ (u.role = .coach ∨ u.role = .armorer ∨ u.role = .admin))
        ∨ (e = .notFound ∧ findKit db kit_code = none)
        ∨ (e = .invalidState ∧ ∃ kit, findKit db kit_code = some kit ∧ kit.status ≠ .available) := by
  simp only [checkout_kit_onprem]
  split
  next ev kit2 db2 heq =>
    split at heq
    · exact absurd heq (by simp)
    next hrole =>
      split at heq
      · exact absurd heq (by simp)
      next kit hfind =>
        split at heq
        · exact absurd heq (by simp)
        next hstatus =>
          rw [Except.ok.injEq, Prod.mk.injEq, Prod.mk.injEq] at heq
          obtain ⟨hev, hkit2, hdb2⟩ := heq
          subst hev hkit2 hdb2
          simp only [List.mem_cons, List.not_mem_nil, or_false, not_or, not_not] at hrole
          refine ⟨?_, ⟨kit, hfind, ?_, rfl⟩, rfl, rfl, rfl, rfl, rfl, rfl, rfl, rfl, rfl, rfl, rfl⟩
          · tauto
          · simpa using hstatus
  next e heq =>
    split at heq
    next hrole =>
      rw [Except.error.injEq] at heq
      subst heq
      refine Or.inl ⟨rfl, ?_⟩
      simpa [not_or] using hrole
    next hrole =>
      split at heq
      next hfind =>
        rw [Except.error.injEq] at heq
        subst heq
        exact Or.inr (Or.inl ⟨rfl, hfind⟩)
      next kit hfind =>
        split at heq
        next hstatus =>
          rw [Except.error.injEq] at heq
          subst heq
          exact Or.inr (Or.inr ⟨rfl, kit, hfind, by simpa using hstatus⟩)
        · exact absurd heq (by simp)

/-- Inversion: a successful on-prem checkout appends exactly its event and
leaves requests and maintenance untouched. -/
theorem checkout_ok_inv {db : DB} {kit_code custodian_name : String} {u : User}
    {cid : Option Nat} {notes : Option String} {erd : Option Int}
    {ev : CustodyEvent} {kit2 : Kit} {db2 : DB}
    (h : checkout_kit_onprem db kit_code custodian_name u cid notes erd = .ok (ev, kit2, db2)) :
    db2.events = db.events ++ [ev] ∧ db2.requests = db.requests
      ∧ db2.maint = db.maint ∧ db2.nextId = db.nextId + 1 := by
  simp only [checkout_kit_onprem] at h
  split at h
  · exact absurd h (by simp)
  · split at h
    · exact absurd h (by simp)
    · split at h
      · exact absurd h (by simp)
      · rw [Except.ok.injEq, Prod.mk.injEq, Prod.mk.injEq] at h
        obtain ⟨he, hk, hd⟩ := h
        subst hd he hk
        exact ⟨rfl, rfl, rfl, rfl⟩

/-- Inversion: a successful transfer appends exactly its event and leaves
requests and maintenance untouched. -/
theorem transfer_ok_inv {db : DB} {kit_code new_name : String} {u : User}
    {cid : Option Nat} {notes : Option String}
    {ev : CustodyEvent} {kit2 : Kit} {prev : String} {db2 : DB}
    (h : transfer_kit_custody db kit_code new_name u cid notes = .ok (ev, kit2, prev, db2)) :
    db2.events = db.events ++ [ev] ∧ db2.requests = db.requests
      ∧ db2.maint = db.maint ∧ db2.nextId = db.nextId + 1 := by
  simp only [transfer_kit_custody] at h
  split at h
  · exact absurd h (by simp)
  · split at h
    · exact absurd h (by simp)
    · split at h
      · exact absurd h (by simp)
      · rw [Except.ok.injEq, Prod.mk.injEq, Prod.mk.injEq, Prod.mk.injEq] at h
        obtain ⟨he, hk, hp, hd⟩ := h
        subst hd he hk hp
        exact ⟨rfl, rfl, rfl, rfl⟩

/-- Inversion: a successful lost report appends exactly its event and leaves
requests and maintenance untouched. -/
theorem lost_ok_inv {db : DB} {kit_code : String} {u : User} {notes : Option String}
    {ev : CustodyEvent} {kit2 : Kit} {db2 : DB}
    (h : report_kit_lost db kit_code u notes = .ok (ev, kit2, db2)) :
    db2.events = db.events ++ [ev] ∧ db2.requests = db.requests
      ∧ db2.maint = db.maint ∧ db2.nextId = db.nextId + 1 := by
  simp only [report_kit_lost] at h
  split at h
  · exact absurd h (by simp)
  · split at h
    · exact absurd h (by simp)
    · split at h
      · exact absurd h (by simp)
      · rw [Except.ok.injEq, Prod.mk.injEq, Prod.mk.injEq] at h
        obtain ⟨he, hk, hd⟩ := h
        subst hd he hk
        exact ⟨rfl, rfl, rfl, rfl⟩

/-- Inversion: a successful found report appends exactly its event and leaves
requests and maintenance untouched. -/
theorem found_ok_inv {db : DB} {kit_code : String} {u : User} {notes : Option String}
    {ev : CustodyEvent} {kit2 : Kit} {db2 : DB}
    (h : report_kit_found db kit_code u notes = .ok (ev, kit2, db2)) :
    db2.events = db.events ++ [ev] ∧ db2.requests = db.requests
      ∧ db2.maint = db.maint ∧ db2.nextId = db.nextId + 1 := by
  simp only [report_kit_found] at h
  split at h
  · exact absurd h (by simp)
  · split at h
    · exact absurd h (by simp)
    · split at h
      · exact absurd h (by simp)
      · rw [Except.ok.injEq, Prod.mk.injEq, Prod.mk.injEq] at h
        obtain ⟨he, hk, hd⟩ := h
        subst hd he hk
        exact ⟨rfl, rfl, rfl, rfl⟩

/-- Inversion: a successful check-in appends exactly its event and leaves
requests and maintenance untouched. -/
theorem checkin_ok_inv {db : DB} {kit_code : String} {u : User} {notes : Option String}
    {ev : CustodyEvent} {kit2 : Kit} {db2 : DB}
    (h : checkin_kit db kit_code u notes = .ok (ev, kit2, db2)) :
    db2.events = db.events ++ [ev] ∧ db2.requests = db.requests
      ∧ db2.maint = db.maint ∧ db2.nextId = db.nextId + 1 := by
  simp only [checkin_kit] at h
  split at h
  · exact absurd h (by simp)
  · split at h
    · exact absurd h (by simp)
    · split at h
      · exact absurd h (by simp)
      · rw [Except.ok.injEq, Prod.mk.injEq, Prod.mk.injEq] at h
        obtain ⟨he, hk, hd⟩ := h
        subst hd he hk
        exact ⟨rfl, rfl, rfl, rfl⟩

/-- Inversion of a successful off-site request creation: it appends one fresh
pending request for the looked-up available kit, after the no-pending guard,
and touches nothing else. -/
theorem create_request_ok_inv {db : DB} {kit_code custodian_name : String}
    {u : User} {cid : Option Nat} {notes : Option String}
    {req : ApprovalRequest} {kit : Kit} {db2 : DB}
    (h : create_offsite_checkout_request db kit_code custodian_name u cid notes
          = .ok (req, kit, db2)) :
    db2.events = db.events ∧ db2.maint = db.maint ∧ db2.kits = db.kits
      ∧ db2.requests = db.requests ++ [req] ∧ db2.nextId = db.nextId + 1
      ∧ req.id = db.nextId ∧ req.status = .pending
      ∧ findKit db kit_code = some kit ∧ req.kit_id = kit.id
      ∧ kit.status = .available
      ∧ db.requests.find? (fun r => r.kit_id = kit.id ∧ r.status = .pending) = none := by
  simp only [create_offsite_checkout_request] at h
  split at h
  · exact absurd h (by simp)
  · split at h
    · exact absurd h (by simp)
    · rename_i kit0 hfind
      split at h
      · exact absurd h (by simp)
      · rename_i hstatus
        split at h
        · exact absurd h (by simp)
        · rename_i hnone
          rw [Except.ok.injEq, Prod.mk.injEq, Prod.mk.injEq] at h
          obtain ⟨hr, hk, hd⟩ := h
          subst hd hk
          refine ⟨rfl, rfl, rfl, by rw [hr], rfl, by rw [← hr], by rw [← hr], hfind,
            by rw [← hr], by simpa using hstatus, ?_⟩
          simpa [← hr] using hnone

/-- Inversion of a successful approval decision: the found request was pending,
the written row keeps its id and kit and moves to a terminal status, requests
are updated in place, and the ledger gains an event only on approval. -/
theorem decide_ok_inv {db : DB} {rid : Nat} {u : User} {approve : Bool}
    {reason : Option String} {req2 : ApprovalRequest} {mev : Option CustodyEvent}
    {kit : Kit} {db2 : DB}
    (h : approve_or_deny_offsite_request db rid u approve reason
          = .ok (req2, mev, kit, db2)) :
    ∃ req0, db.requests.find? (fun r => r.id = rid) = some req0
      ∧ req0.status = .pending
      ∧ req2.id = req0.id ∧ req2.kit_id = req0.kit_id
      ∧ (req2.status = .approved ∨ req2.status = .denied)
      ∧ db2.requests = putRequest db.requests req2
      ∧ db2.maint = db.maint
      ∧ ((db2.events = db.events ∧ db2.nextId = db.nextId ∧ mev = none)
          ∨ (∃ ev, mev = some ev ∧ db2.events = db.events ++ [ev]
              ∧ db2.nextId = db.nextId + 1)) := by
  simp only [approve_or_deny_offsite_request] at h
  split at h
  · exact absurd h (by simp)
  · split at h
    · exact absurd h (by simp)
    · rename_i req0 hfind
      split at h
      · exact absurd h (by simp)
      · rename_i hpending
        split at h
        · exact absurd h (by simp)
        · rename_i kit0 hkit
          split at h
          · -- approve branch
            split at h
            · exact absurd h (by simp)
            · rename_i hstatus
              rw [Except.ok.injEq, Prod.mk.injEq, Prod.mk.injEq, Prod.mk.injEq] at h
              obtain ⟨hr, hm, hk, hd⟩ := h
              subst hd hm
              refine ⟨req0, hfind, by simpa using hpending, by rw [← hr], by rw [← hr],
                Or.inl (by rw [← hr]), by rw [hr], rfl, Or.inr ⟨_, rfl, rfl, rfl⟩⟩
          · -- deny branch
            split at h
            · exact absurd h (by simp)
            · rename_i reason0
              split at h
              · exact absurd h (by simp)
              · rename_i hne
                rw [Except.ok.injEq, Prod.mk.injEq, Prod.mk.injEq, Prod.mk.injEq] at h
                obtain ⟨hr, hm, hk, hd⟩ := h
                subst hd hm
                refine ⟨req0, hfind, by simpa using hpending, by rw [← hr], by rw [← hr],
                  Or.inr (by rw [← hr]), by rw [hr], rfl, Or.inl ⟨rfl, rfl, rfl⟩⟩

/-- Inversion: opening maintenance never writes a custody event and never
touches requests. -/
theorem open_maintenance_ok_inv {db : DB} {kit_code : String} {u : User}
    {notes parts : Option String} {rc : Option Nat}
    {m : MaintenanceEvent} {kit2 : Kit} {db2 : DB}
    (h : open_maintenance db kit_code u notes parts rc = .ok (m, kit2, db2)) :
    db2.events = db.events ∧ db2.requests = db.requests
      ∧ db2.nextId = db.nextId + 1 := by
  simp only [open_maintenance] at h
  split at h
  · exact absurd h (by simp)
  · split at h
    · exact absurd h (by simp)
    · split at h
      · exact absurd h (by simp)
      · rw [Except.ok.injEq, Prod.mk.injEq, Prod.mk.injEq] at h
        obtain ⟨hm, hk, hd⟩ := h
        subst hd hm hk
        exact ⟨rfl, rfl, rfl⟩

/-- Inversion: closing maintenance never writes a custody event and never
touches requests or the id counter. -/
theorem close_maintenance_ok_inv {db : DB} {kit_code : String} {u : User}
    {notes parts : Option String} {rc : Option Nat}
    {m : MaintenanceEvent} {kit2 : Kit} {db2 : DB}
    (h : close_maintenance db kit_code u notes parts rc = .ok (m, kit2, db2)) :
    db2.events = db.events ∧ db2.requests = db.requests
      ∧ db2.nextId = db.nextId := by
  simp only [close_maintenance] at h
  split at h
  · exact absurd h (by simp)
  · split at h
    · exact absurd h (by simp)
    · split at h
      · exact absurd h (by simp)
      · split at h
        · exact absurd h (by simp)
        · rw [Except.ok.injEq, Prod.mk.injEq, Prod.mk.injEq] at h
          obtain ⟨hm, hk, hd⟩ := h
          subst hd hm hk
          exact ⟨rfl, rfl, rfl⟩

/-- Every engine step only ever appends to the custody-event table. -/
theorem step_events_extend {db db2 : DB} (h : Step db db2) :
    ∃ tail, db2.events = db.events ++ tail := by
  cases h with
  | create_kit code name => exact ⟨[], by simp⟩
  | checkout kc cn u cid notes erd ev kit2 d2 hok =>
      exact ⟨[ev], (checkout_ok_inv hok).1⟩
  | transfer kc nn u cid notes ev kit2 prev d2 hok =>
      exact ⟨[ev], (transfer_ok_inv hok).1⟩
  | lost kc u notes ev kit2 d2 hok =>
      exact ⟨[ev], (lost_ok_inv hok).1⟩
  | found kc u notes ev kit2 d2 hok =>
      exact ⟨[ev], (found_ok_inv hok).1⟩
  | checkin kc u notes ev kit2 d2 hok =>
      exact ⟨[ev], (checkin_ok_inv hok).1⟩
  | offsite_request kc cn u cid notes req kit d2 hok =>
      exact ⟨[], by simpa using (create_request_ok_inv hok).1⟩
  | decide rid u a reason req mev kit d2 hok =>
      obtain ⟨req0, _, _, _, _, _, _, _, hev⟩ := decide_ok_inv hok
      rcases hev with ⟨he, _, _⟩ | ⟨ev, _, he, _⟩
      · exact ⟨[], by simpa using he⟩
      · exact ⟨[ev], he⟩
  | maint_open kc u notes parts rc m kit2 d2 hok =>
      exact ⟨[], by simpa using (open_maintenance_ok_inv hok).1⟩
  | maint_close kc u notes parts rc m kit2 d2 hok =>
      exact ⟨[], by simpa using (close_maintenance_ok_inv hok).1⟩

/-- `putRequest` replaces rows in place, so the id column is untouched. -/
theorem map_id_putRequest (l : List ApprovalRequest) (r2 : ApprovalRequest) :
    (putRequest l r2).map (fun r => r.id) = l.map (fun r => r.id) := by
  induction l with
  | nil => rfl
  | cons a t ih =>
    by_cases h : a.id = r2.id
    · simpa [putRequest, h] using ih
    · simpa [putRequest, h] using ih

/-- `ReqInv` holds in the empty store. -/
theorem reqInv_init : ReqInv DB.init :=
  ⟨by intro r hr; simp [DB.init] at hr,
   by simp [DB.init],
   by intro k; simp [pendingCount, DB.init]⟩

/-- `ReqInv` is preserved by any step that leaves the request table unchanged
and does not decrease the id counter. -/
theorem reqInv_of_unchanged {db db2 : DB} (hInv : ReqInv db)
    (hreq : db2.requests = db.requests) (hn : db.nextId ≤ db2.nextId) :
    ReqInv db2 := by
  obtain ⟨h1, h2, h3⟩ := hInv
  refine ⟨?_, ?_, ?_⟩
  · intro r hr
    exact lt_of_lt_of_le (h1 r (hreq ▸ hr)) hn
  · rw [hreq]; exact h2
  · intro k
    simp only [pendingCount, hreq]
    simpa [pendingCount] using h3 k

/-- `ReqInv` is preserved by request creation: the guard rules out a second
pending row for the same kit, and the fresh id keeps the id column duplicate
free. -/
theorem reqInv_create {db db2 : DB} {kit_code custodian_name : String} {u : User}
    {cid : Option Nat} {notes : Option String} {req : ApprovalRequest} {kit : Kit}
    (hInv : ReqInv db)
    (h : create_offsite_checkout_request db kit_code custodian_name u cid notes
          = .ok (req, kit, db2)) :
    ReqInv db2 := by
  obtain ⟨h1, h2, h3⟩ := hInv
  obtain ⟨hev, hm, hk, hreq, hn, hid, hst, hfind, hkid, hkst, hnone⟩ :=
    create_request_ok_inv h
  refine ⟨?_, ?_, ?_⟩
  · intro r hr
    rw [hreq] at hr
    rw [hn]
    rcases List.mem_append.mp hr with hr | hr
    · exact lt_of_lt_of_le (h1 r hr) (Nat.le_succ _)
    · rw [List.mem_singleton.mp hr, hid]
      exact Nat.lt_succ_self _
  · rw [hreq, List.map_append]
    rw [List.nodup_append_comm]
    simp only [List.map_cons, List.map_nil, List.singleton_append, List.nodup_cons]
    refine ⟨?_, h2⟩
    intro hmem
    obtain ⟨r, hr, hrid⟩ := List.mem_map.mp hmem
    have := h1 r hr
    rw [hrid, hid] at this
    omega
  · intro k
    simp only [pendingCount, hreq, List.countP_append]
    by_cases hkk : k = kit.id
    · subst hkk
      have hzero :
          db.requests.countP (fun r => decide (r.kit_id = kit.id ∧ r.status = .pending)) = 0 := by
        rw [List.countP_eq_zero]
        intro r hr
        have := List.find?_eq_none.mp hnone r hr
        simpa using this
      have hone :
          ([req].countP (fun r => decide (r.kit_id = kit.id ∧ r.status = .pending))) = 1 := by
        simp [List.countP_cons, hkid, hst]
      rw [hzero, hone]
    · have hzero :
          ([req].countP (fun r => decide (r.kit_id = k ∧ r.status = .pending))) = 0 := by
        simp only [List.countP_cons, List.countP_nil, decide_eq_true_eq]
        have : ¬ (req.kit_id = k ∧ req.status = .pending) := by
          rw [hkid]
          exact fun hc => hkk (hc.1.symm)
        simp [this]
      rw [hzero]
      simpa [pendingCount] using h3 k

/-- `ReqInv` is preserved by a decision: the touched row moves out of
`pending`, so the pending count can only fall, and the id column is
untouched. -/
theorem reqInv_decide {db db2 : DB} {rid : Nat} {u : User} {a : Bool}
    {reason : Option String} {req2 : ApprovalRequest} {mev : Option CustodyEvent}
    {kit : Kit}
    (hInv : ReqInv db)
    (h : approve_or_deny_offsite_request db rid u a reason = .ok (req2, mev, kit, db2)) :
    ReqInv db2 := by
  obtain ⟨h1, h2, h3⟩ := hInv
  obtain ⟨req0, hfind, hp0, hid, hkid, hterm, hreq, hm, hrest⟩ := decide_ok_inv h
  have hreq0mem : req0 ∈ db.requests := List.mem_of_find?_eq_some hfind
  have hn : db.nextId ≤ db2.nextId := by
    rcases hrest with ⟨_, he, _⟩ | ⟨ev, _, _, he⟩ <;> omega
  have hnp : req2.status ≠ .pending := by
    rcases hterm with ht | ht <;> simp [ht]
  refine ⟨?_, ?_, ?_⟩
  · intro r hr
    rw [hreq] at hr
    simp only [putRequest] at hr
    obtain ⟨r0, hr0, hfr⟩ := List.mem_map.mp hr
    by_cases hc : r0.id = req2.id
    · rw [if_pos hc] at hfr
      rw [← hfr, hid]
      exact lt_of_lt_of_le (h1 req0 hreq0mem) hn
    · rw [if_neg hc] at hfr
      rw [← hfr]
      exact lt_of_lt_of_le (h1 r0 hr0) hn
  · rw [hreq]
    rw [map_id_putRequest]
    exact h2
  · intro k
    simp only [pendingCount, hreq, putRequest, List.countP_map]
    refine le_trans (List.countP_mono_left ?_) (h3 k)
    intro r hr hpr
    by_cases hc : r.id = req2.id
    · exfalso
      simp only [Function.comp, if_pos hc, decide_eq_true_eq] at hpr
      exact hnp hpr.2
    · simpa only [Function.comp, if_neg hc] using hpr

/-- Every step preserves `ReqInv`. -/
theorem reqInv_step {db db2 : DB} (hInv : ReqInv db) (h : Step db db2) : ReqInv db2 := by
  cases h with
  | create_kit code name => exact reqInv_of_unchanged hInv rfl (Nat.le_succ _)
  | checkout kc cn u cid notes erd ev kit2 d2 hok =>
      have hi := checkout_ok_inv hok
      exact reqInv_of_unchanged hInv hi.2.1 (by omega)
  | transfer kc nn u cid notes ev kit2 prev d2 hok =>
      have hi := transfer_ok_inv hok
      exact reqInv_of_unchanged hInv hi.2.1 (by omega)
  | lost kc u notes ev kit2 d2 hok =>
      have hi := lost_ok_inv hok
      exact reqInv_of_unchanged hInv hi.2.1 (by omega)
  | found kc u notes ev kit2 d2 hok =>
      have hi := found_ok_inv hok
      exact reqInv_of_unchanged hInv hi.2.1 (by omega)
  | checkin kc u notes ev kit2 d2 hok =>
      have hi := checkin_ok_inv hok
      exact reqInv_of_unchanged hInv hi.2.1 (by omega)
  | offsite_request kc cn u cid notes req kit d2 hok =>
      exact reqInv_create hInv hok
  | decide rid u a reason req mev kit d2 hok =>
      exact reqInv_decide hInv hok
  | maint_open kc u notes parts rc m kit2 d2 hok =>
      have hi := open_maintenance_ok_inv hok
      exact reqInv_of_unchanged hInv hi.2.1 (by omega)
  | maint_close kc u notes parts rc m kit2 d2 hok =>
      have hi := close_maintenance_ok_inv hok
      exact reqInv_of_unchanged hInv hi.2.1 (by omega)

/-- Every reachable store satisfies `ReqInv`. -/
theorem reqInv_of_reachable {db : DB} (h : Reachable db) : ReqInv db := by
  induction h with
  | init => exact reqInv_init
  | step db db2 hr hs ih => exact reqInv_step ih hs

/-- C1: the CustodyEvent table is append-only.  Any ORM update or delete is
refused by the `before_update` / `before_delete` listeners (a `ValueError`,
leaving the table untouched since the flush fails), an accepted flush only
appends, and consequently along every engine step the set of CustodyEvent rows
for any kit only grows. -/
theorem C1_append_only_enforced :
    (∀ tbl id f, ∃ msg, flushLedger tbl (LedgerOp.update id f) = .error msg)
    ∧ (∀ tbl id, ∃ msg, flushLedger tbl (LedgerOp.delete id) = .error msg)
    ∧ (∀ tbl op tbl2, flushLedger tbl op = .ok tbl2 → ∃ new, tbl2 = tbl ++ new)
    ∧ (∀ db db2, Step db db2 → ∀ kid, eventCount db kid ≤ eventCount db2 kid) := by
  refine ⟨fun tbl id f => ⟨_, rfl⟩, fun tbl id => ⟨_, rfl⟩, ?_, ?_⟩
  · intro tbl op tbl2 h
    cases op with
    | insert e =>
        simp only [flushLedger, Except.ok.injEq] at h
        exact ⟨[e], h.symm⟩
    | update id f => simp [flushLedger] at h
    | delete id => simp [flushLedger] at h
  · intro db db2 h kid
    obtain ⟨tail, htail⟩ := step_events_extend h
    simp [eventCount, htail, List.countP_append]

/-- C5: at most one pending request per kit.  In every reachable store the
pending count per kit is 0 or 1; `create_offsite_checkout_request` refuses
with `conflict` while a pending request for the kit exists; a successful
decision always lands on a terminal status; and no step ever touches a row
whose status is already terminal, so requests are never re-opened. -/
theorem C5_at_most_one_pending :
    (∀ db, Reachable db → ∀ k, pendingCount db k ≤ 1)
    ∧ (∀ (db : DB) (kit_code custodian_name : String) (u : User) (cid : Option Nat)
        (notes : Option String) (kit : Kit),
        u.verified_adult = true →
        findKit db kit_code = some kit →
        kit.status = .available →
        db.requests.find? (fun r => r.kit_id = kit.id ∧ r.status = .pending) ≠ none →
        create_offsite_checkout_request db kit_code custodian_name u cid notes
          = .error .conflict)
    ∧ (∀ (db : DB) (rid : Nat) (u : User) (a : Bool) (reason : Option String)
        (req2 : ApprovalRequest) (mev : Option CustodyEvent) (kit : Kit) (db2 : DB),
        approve_or_deny_offsite_request db rid u a reason = .ok (req2, mev, kit, db2) →
        req2.status = .approved ∨ req2.status = .denied)
    ∧ (∀ db db2, Reachable db → Step db db2 →
        ∀ r ∈ db.requests, r.status ≠ .pending → r ∈ db2.requests) := by
  refine ⟨?_, ?_, ?_, ?_⟩
  · intro db h k
    exact (reqInv_of_reachable h).2.2 k
  · intro db kc cn u cid notes kit hva hfind hav hpend
    obtain ⟨r0, hr0⟩ := Option.ne_none_iff_exists'.mp hpend
    simp only [create_offsite_checkout_request, hva, hfind, hav, hr0]
    simp
  · intro db rid u a reason req2 mev kit db2 h
    obtain ⟨req0, _, _, _, _, hterm, _, _, _⟩ := decide_ok_inv h
    exact hterm
  · intro db db2 hreach hstep r hr hrnp
    obtain ⟨hlt, hnodup, hpc⟩ := reqInv_of_reachable hreach
    cases hstep with
    | create_kit code name => exact hr
    | checkout kc cn u cid notes erd ev kit2 d2 hok =>
        rw [(checkout_ok_inv hok).2.1]; exact hr
    | transfer kc nn u cid notes ev kit2 prev d2 hok =>
        rw [(transfer_ok_inv hok).2.1]; exact hr
    | lost kc u notes ev kit2 d2 hok =>
        rw [(lost_ok_inv hok).2.1]; exact hr
    | found kc u notes ev kit2 d2 hok =>
        rw [(found_ok_inv hok).2.1]; exact hr
    | checkin kc u notes ev kit2 d2 hok =>
        rw [(checkin_ok_inv hok).2.1]; exact hr
    | offsite_request kc cn u cid notes req kit d2 hok =>
        rw [(create_request_ok_inv hok).2.2.2.1]
        exact List.mem_append_left _ hr
    | decide rid u a reason req mev kit d2 hok =>
        obtain ⟨req0, hfind, hp0, hid, hkid, hterm, hreqEq, hm, hrest⟩ := decide_ok_inv hok
        rw [hreqEq]
        simp only [putRequest]
        have hne : r.id ≠ req.id := by
          intro hEq
          have hreq0mem : req0 ∈ db.requests := List.mem_of_find?_eq_some hfind
          have : r = req0 :=
            List.inj_on_of_nodup_map hnodup hr hreq0mem (by rw [hEq, hid])
          exact hrnp (by rw [this, hp0])
        exact List.mem_map.mpr ⟨r, hr, by rw [if_neg hne]⟩
    | maint_open kc u notes parts rc m kit2 d2 hok =>
        rw [(open_maintenance_ok_inv hok).2.1]; exact hr
    | maint_close kc u notes parts rc m kit2 d2 hok =>
        rw [(close_maintenance_ok_inv hok).2.1]; exact hr

/-- C7 (spec-modelled, the operation is absent from src): check-in succeeds
exactly on an existing `checked_out` kit with an authorized actor; it writes
one `checkin` event and returns the kit to `available`, realizing the
`checked_out → available` leg of the status machine. -/
theorem C7_checkin_correct (db : DB) (kit_code : String) (u : User)
    (notes : Option String) :
    match checkin_kit db kit_code u notes with
    | .ok (ev, kit2, db2) =>
        ev.event_type = .checkin
        ∧ kit2.status = .available
        ∧ kit2.current_custodian_id = none
        ∧ kit2.current_custodian_name = none
        ∧ db2.events = db.events ++ [ev]
        ∧ (∃ kit, findKit db kit_code = some kit ∧ kit.status = .checked_out
            ∧ ev.kit_id = kit.id ∧ db2.kits = putKit db.kits kit2)
    | .error e =>
        (e = .forbidden ∧ ¬ (u.role = .coach ∨ u.role = .armorer ∨ u.role = .admin))
        ∨ (e = .notFound ∧ findKit db kit_code = none)
        ∨ (e = .invalidState
            ∧ ∃ kit, findKit db kit_code = some kit ∧ kit.status ≠ .checked_out) := by
  simp only [checkin_kit]
  split
  next ev kit2 db2 heq =>
    split at heq
    · exact absurd heq (by simp)
    next hrole =>
      split at heq
      · exact absurd heq (by simp)
      next kit hfind =>
        split at heq
        · exact absurd heq (by simp)
        next hstatus =>
          rw [Except.ok.injEq, Prod.mk.injEq, Prod.mk.injEq] at heq
          obtain ⟨hev, hkit2, hdb2⟩ := heq
          subst hev hkit2 hdb2
          exact ⟨rfl, rfl, rfl, rfl, rfl, kit, hfind, by simpa using hstatus, rfl, rfl⟩
  next e heq =>
    split at heq
    next hrole =>
      rw [Except.error.injEq] at heq
      subst heq
      refine Or.inl ⟨rfl, ?_⟩
      simpa [not_or] using hrole
    next hrole =>
      split at heq
      next hfind =>
        rw [Except.error.injEq] at heq
        subst heq
        exact Or.inr (Or.inl ⟨rfl, hfind⟩)
      next kit hfind =>
        split at heq
        next hstatus =>
          rw [Except.error.injEq] at heq
          subst heq
          exact Or.inr (Or.inr ⟨rfl, kit, hfind, by simpa using hstatus⟩)
        · exact absurd heq (by simp)

/-- C10: `open_maintenance` accepts any kit that is not already in
maintenance (`checked_out` and `lost` included) and moves it to
`in_maintenance`; `close_maintenance` always returns the kit to `available`
with the custodian cleared; neither writes a CustodyEvent — witnessed by the
closed scenario where a `checked_out` kit reaches `available` with the custody
ledger still empty. -/
theorem C10_maintenance_bypasses_ledger :
    (∀ (db : DB) (kit_code : String) (u : User) (notes parts : Option String)
        (rc : Option Nat),
      match open_maintenance db kit_code u notes parts rc with
      | .ok (m, kit2, db2) =>
          (∃ kit, findKit db kit_code = some kit ∧ kit.status ≠ .in_maintenance
            ∧ kit2 = { kit with status := .in_maintenance })
          ∧ m.is_open = true
          ∧ db2.events = db.events
          ∧ db2.requests = db.requests
      | .error e =>
          (e = .forbidden ∧ ¬ (u.role = .armorer ∨ u.role = .admin))
          ∨ (e = .notFound ∧ findKit db kit_code = none)
          ∨ (e = .invalidState
              ∧ ∃ kit, findKit db kit_code = some kit ∧ kit.status = .in_maintenance))
    ∧ (∀ (db : DB) (kit_code : String) (u : User) (notes parts : Option String)
        (rc : Option Nat) (m : MaintenanceEvent) (kit2 : Kit) (db2 : DB),
        close_maintenance db kit_code u notes parts rc = .ok (m, kit2, db2) →
        kit2.status = .available ∧ kit2.current_custodian_id = none
          ∧ kit2.current_custodian_name = none ∧ m.is_open = false
          ∧ db2.events = db.events)
    ∧ maintScenario = some (.available, none, none, [], false) := by
  refine ⟨?_, ?_, by decide⟩
  · intro db kit_code u notes parts rc
    simp only [open_maintenance]
    split
    next m kit2 db2 heq =>
      split at heq
      · exact absurd heq (by simp)
      next hrole =>
        split at heq
        · exact absurd heq (by simp)
        next kit hfind =>
          split at heq
          · exact absurd heq (by simp)
          next hstatus =>
            rw [Except.ok.injEq, Prod.mk.injEq, Prod.mk.injEq] at heq
            obtain ⟨hm, hk, hd⟩ := heq
            subst hm hk hd
            exact ⟨⟨kit, hfind, hstatus, rfl⟩, rfl, rfl, rfl⟩
    next e heq =>
      split at heq
      next hrole =>
        rw [Except.error.injEq] at heq
        subst heq
        refine Or.inl ⟨rfl, ?_⟩
        simpa [not_or] using hrole
      next hrole =>
        split at heq
        next hfind =>
          rw [Except.error.injEq] at heq
          subst heq
          exact Or.inr (Or.inl ⟨rfl, hfind⟩)
        next kit hfind =>
          split at heq
          next hstatus =>
            rw [Except.error.injEq] at heq
            subst heq
            exact Or.inr (Or.inr ⟨rfl, kit, hfind, hstatus⟩)
          · exact absurd heq (by simp)
  · intro db kit_code u notes parts rc m kit2 db2 h
    simp only [close_maintenance] at h
    split at h
    · exact absurd h (by simp)
    · split at h
      · exact absurd h (by simp)
      · split at h
        · exact absurd h (by simp)
        · split at h
          · exact absurd h (by simp)
          · rw [Except.ok.injEq, Prod.mk.injEq, Prod.mk.injEq] at h
            obtain ⟨hm, hk, hd⟩ := h
            subst hm hk hd
            exact ⟨rfl, rfl, rfl, rfl, rfl⟩

/-- C3 counterexample: on a concrete pending request approved by a concrete
armorer (id 2), the operation succeeds and records the approver on the
request, but the written `checkout_offsite` event carries `approved_by_id =
none` and `approved_by_name = none` — the claim's "approver recorded in the
event's approved_by fields" is false on the code. -/
theorem C3_counterexample_event_approved_by_left_null :
    decideOutcomeC3 = some (some 2, none, none, .checkout_offsite) := by decide

/-- C3 as amended: the full behaviour of `approve_or_deny_offsite_request`.
On approve with the kit still available it writes one
`checkout_offsite`/`off_site` event whose `approved_by` columns stay null
(the approver is recorded on the request row and in the event's notes text)
and checks the kit out to the requested custodian; on deny with a non-empty
reason it records approver and reason and mutates no kit; missing/empty
denial reason is `invalidInput`; approving a kit no longer available is
`invalidState`. -/
theorem C3_decide_correct (db : DB) (rid : Nat) (u : User) (approve : Bool)
    (reason : Option String) :
    match approve_or_deny_offsite_request db rid u approve reason with
    | .ok (req2, mev, kit2, db2) =>
        (u.role = .armorer ∨ u.role = .coach ∨ u.role = .admin)
        ∧ ∃ req, db.requests.find? (fun r => r.id = rid) = some req
            ∧ req.status = .pending
            ∧ ((approve = true
                ∧ (∃ kit, findKitById db req.kit_id = some kit
                    ∧ kit.status = .available
                    ∧ kit2 = { kit with
                                status := .checked_out
                                current_custodian_id := req.custodian_id
                                current_custodian_name := some req.custodian_name })
                ∧ req2 = { req with
                            status := .approved
                            approver_id := some u.id
                            approver_name := some u.name
                            approver_role := some u.role }
                ∧ (∃ ev, mev = some ev
                    ∧ ev.event_type = .checkout_offsite
                    ∧ ev.location_type = "off_site"
                    ∧ ev.approved_by_id = none
                    ∧ ev.approved_by_name = none
                    ∧ ev.notes = some (approvalNote u req.notes)
                    ∧ ev.custodian_id = req.custodian_id
                    ∧ ev.custodian_name = req.custodian_name
                    ∧ ev.initiated_by_id = req.requester_id
                    ∧ ev.initiated_by_name = req.requester_name
                    ∧ db2.events = db.events ++ [ev])
                ∧ db2.requests = putRequest db.requests req2
                ∧ db2.kits = putKit db.kits kit2)
              ∨ (approve = false
                ∧ (∃ r0, reason = some r0 ∧ r0 ≠ ""
                    ∧ req2 = { req with
                                status := .denied
                                approver_id := some u.id
                                approver_name := some u.name
                                approver_role := some u.role
                                denial_reason := some r0 })
                ∧ mev = none
                ∧ db2.events = db.events
                ∧ db2.kits = db.kits
                ∧ db2.requests = putRequest db.requests req2))
    | .error e =>
        (e = .forbidden ∧ ¬ (u.role = .armorer ∨ u.role = .coach ∨ u.role = .admin))
        ∨ (e = .notFound ∧ (db.requests.find? (fun r => r.id = rid) = none
            ∨ ∃ req, db.requests.find? (fun r => r.id = rid) = some req
                ∧ findKitById db req.kit_id = none))
        ∨ (e = .conflict ∧ ∃ req, db.requests.find? (fun r => r.id = rid) = some req
            ∧ req.status ≠ .pending)
        ∨ (e = .invalidState ∧ approve = true
            ∧ ∃ req kit, db.requests.find? (fun r => r.id = rid) = some req
                ∧ findKitById db req.kit_id = some kit ∧ kit.status ≠ .available)
        ∨ (e = .invalidInput ∧ approve = false
            ∧ (reason = none ∨ reason = some "")) := by
  simp only [approve_or_deny_offsite_request]
  split
  next req2 mev kit2 db2 heq =>
    split at heq
    · exact absurd heq (by simp)
    next hrole =>
      split at heq
      · exact absurd heq (by simp)
      next req hfind =>
        split at heq
        · exact absurd heq (by simp)
        next hpending =>
          split at heq
          · exact absurd heq (by simp)
          next kit hkit =>
            refine ⟨by simp only [List.mem_cons, List.not_mem_nil, or_false, not_or,
              not_not] at hrole; tauto, req, hfind, by simpa using hpending, ?_⟩
            split at heq
            · -- approve branch
              next happrove =>
                split at heq
                · exact absurd heq (by simp)
                next hstatus =>
                  rw [Except.ok.injEq, Prod.mk.injEq, Prod.mk.injEq, Prod.mk.injEq] at heq
                  obtain ⟨hr, hm, hk, hd⟩ := heq
                  subst hd hm hk hr
                  exact Or.inl ⟨happrove, ⟨kit, hkit, by simpa using hstatus, rfl⟩,
                    rfl, ⟨_, rfl, rfl, rfl, rfl, rfl, rfl, rfl, rfl, rfl, rfl, rfl⟩,
                    rfl, rfl⟩
            · -- deny branch
              next happrove =>
                split at heq
                · exact absurd heq (by simp)
                next r0 =>
                  split at heq
                  · exact absurd heq (by simp)
                  next hne =>
                    rw [Except.ok.injEq, Prod.mk.injEq, Prod.mk.injEq, Prod.mk.injEq] at heq
                    obtain ⟨hr, hm, hk, hd⟩ := heq
                    subst hd hm hk hr
                    exact Or.inr ⟨by simpa using happrove,
                      ⟨r0, rfl, hne, rfl⟩, rfl, rfl, rfl, rfl⟩
  next e heq =>
    split at heq
    next hrole =>
      rw [Except.error.injEq] at heq
      subst heq
      refine Or.inl ⟨rfl, ?_⟩
      simpa [not_or] using hrole
    next hrole =>
      split at heq
      next hfind =>
        rw [Except.error.injEq] at heq
        subst heq
        exact Or.inr (Or.inl ⟨rfl, Or.inl hfind⟩)
      next req hfind =>
        split at heq
        next hpending =>
          rw [Except.error.injEq] at heq
          subst heq
          exact Or.inr (Or.inr (Or.inl ⟨rfl, req, hfind, by simpa using hpending⟩))
        next hpending =>
          split at heq
          next hkit =>
            rw [Except.error.injEq] at heq
            subst heq
            exact Or.inr (Or.inl ⟨rfl, Or.inr ⟨req, hfind, hkit⟩⟩)
          next kit hkit =>
            split at heq
            · next happrove =>
                split at heq
                next hstatus =>
                  rw [Except.error.injEq] at heq
                  subst heq
                  exact Or.inr (Or.inr (Or.inr (Or.inl
                    ⟨rfl, happrove, req, kit, hfind, hkit, by simpa using hstatus⟩)))
                · exact absurd heq (by simp)
            · next happrove =>
                split at heq
                · rw [Except.error.injEq] at heq
                  subst heq
                  exact Or.inr (Or.inr (Or.inr (Or.inr
                    ⟨rfl, by simpa using happrove, Or.inl rfl⟩)))
                next r0 =>
                  split at heq
                  next hr0 =>
                    rw [Except.error.injEq] at heq
                    subst heq
                    exact Or.inr (Or.inr (Or.inr (Or.inr
                      ⟨rfl, by simpa using happrove, Or.inr (by rw [hr0])⟩)))
                  · exact absurd heq (by simp)

/-- Xoring twice with the same equal-length mask is the identity. -/
theorem xorBytes_cancel : ∀ {a b : List Nat}, a.length = b.length →
    xorBytes a (xorBytes a b) = b
  | [], [], _ => rfl
  | x :: a, y :: b, h => by
      simp only [xorBytes, List.zipWith_cons_cons, Nat.xor_cancel_left, List.cons.injEq]
      exact ⟨trivial, xorBytes_cancel (by simpa using h)⟩

/-- Length of a bytewise xor. -/
theorem length_xorBytes (a b : List Nat) :
    (xorBytes a b).length = min a.length b.length := by
  simp [xorBytes]

/-- CBC encryption produces as many blocks as it consumes. -/
theorem length_cbcEncrypt (enc : List Nat → List Nat) :
    ∀ (prev : List Nat) (bs : List (List Nat)),
      (cbcEncrypt enc prev bs).length = bs.length
  | _, [] => rfl
  | prev, b :: bs => by
      simp only [cbcEncrypt, List.length_cons]
      rw [length_cbcEncrypt]

/-- Under the primitive contract, CBC ciphertext blocks are 16 bytes. -/
theorem cbcEncrypt_length16 {enc : List Nat → List Nat}
    (hlen : ∀ b, b.length = 16 → (enc b).length = 16) :
    ∀ {prev : List Nat} {bs : List (List Nat)}, prev.length = 16 →
      (∀ b ∈ bs, b.length = 16) →
      ∀ c ∈ cbcEncrypt enc prev bs, c.length = 16 := by
  intro prev bs
  induction bs generalizing prev with
  | nil => intro _ _ c hc; simp [cbcEncrypt] at hc
  | cons b bs ih =>
      intro hprev hbs c hc
      have hxb : (xorBytes prev b).length = 16 := by
        simp [length_xorBytes, hprev, hbs b (by simp)]
      have hcb : (enc (xorBytes prev b)).length = 16 := hlen _ hxb
      simp only [cbcEncrypt, List.mem_cons] at hc
      rcases hc with rfl | hc
      · exact hcb
      · exact ih hcb (fun x hx => hbs x (by simp [hx])) c hc

/-- CBC round trip under the primitive contract. -/
theorem cbcDecrypt_cbcEncrypt {enc dec : List Nat → List Nat}
    (hdec : ∀ b, b.length = 16 → dec (enc b) = b)
    (hlen : ∀ b, b.length = 16 → (enc b).length = 16) :
    ∀ {prev : List Nat} {bs : List (List Nat)}, prev.length = 16 →
      (∀ b ∈ bs, b.length = 16) →
      cbcDecrypt dec prev (cbcEncrypt enc prev bs) = bs := by
  intro prev bs
  induction bs generalizing prev with
  | nil => intro _ _; rfl
  | cons b bs ih =>
      intro hprev hbs
      have hb : b.length = 16 := hbs b (by simp)
      have hxb : (xorBytes prev b).length = 16 := by
        simp [length_xorBytes, hprev, hb]
      have hcb : (enc (xorBytes prev b)).length = 16 := hlen _ hxb
      simp only [cbcEncrypt, cbcDecrypt, List.cons.injEq]
      constructor
      · rw [hdec _ hxb]
        exact xorBytes_cancel (by rw [hprev, hb])
      · exact ih hcb (fun x hx => hbs x (by simp [hx]))

/-- `chunks16` of the empty string is empty, and conversely. -/
theorem chunks16_eq_nil_iff (bs : List Nat) : chunks16 bs = [] ↔ bs = [] := by
  constructor
  · intro h
    by_contra hne
    rw [chunks16, dif_neg hne] at h
    exact List.cons_ne_nil _ _ h
  · intro h
    rw [h, chunks16, dif_pos rfl]

/-- Every chunk of a byte string whose length is a multiple of 16 has 16
bytes. -/
theorem chunks16_length16 (bs : List Nat) (h : bs.length % 16 = 0) :
    ∀ b ∈ chunks16 bs, b.length = 16 := by
  induction bs using chunks16.induct with
  | case1 => intro b hb; simp [chunks16] at hb
  | case2 bs hne ih =>
      intro b hb
      have hlen : 16 ≤ bs.length := by
        have : 0 < bs.length := List.length_pos.mpr hne
        omega
      rw [chunks16, dif_neg hne] at hb
      rcases List.mem_cons.mp hb with rfl | hb
      · simp [List.length_take]; omega
      · exact ih (by simp [List.length_drop]; omega) b hb

/-- Re-splitting a concatenation of 16-byte blocks recovers the blocks. -/
theorem chunks16_flatten : ∀ (blocks : List (List Nat)),
    (∀ b ∈ blocks, b.length = 16) → chunks16 blocks.flatten = blocks
  | [], _ => by simp [chunks16]
  | b :: blocks, h => by
      have hb : b.length = 16 := h b (by simp)
      have hne : b ++ blocks.flatten ≠ [] := by
        intro hc
        have : b = [] := by
          cases b with
          | nil => rfl
          | cons x xs => simp at hc
        rw [this] at hb
        simp at hb
      simp only [List.flatten_cons]
      rw [chunks16, dif_neg hne, List.take_left' hb, List.drop_left' hb,
        chunks16_flatten blocks (fun x hx => h x (by simp [hx]))]

/-- Length of a concatenation of 16-byte blocks. -/
theorem flatten_length16 : ∀ (blocks : List (List Nat)),
    (∀ b ∈ blocks, b.length = 16) →
    blocks.flatten.length = 16 * blocks.length
  | [], _ => rfl
  | b :: blocks, h => by
      simp only [List.flatten_cons, List.length_append, List.length_cons]
      rw [h b (by simp), flatten_length16 blocks (fun x hx => h x (by simp [hx]))]
      ring

/-- Splitting any byte string into 16-byte chunks and concatenating them is
the identity. -/
theorem flatten_chunks16 (bs : List Nat) : (chunks16 bs).flatten = bs := by
  induction bs using chunks16.induct with
  | case1 => simp [chunks16]
  | case2 bs hne ih =>
      rw [chunks16, dif_neg hne]
      simp only [List.flatten_cons, ih, List.take_append_drop]

/-- The PKCS7-padded string has a length that is a multiple of 16, and is
never empty. -/
theorem pkcs7Pad_length (bs : List Nat) :
    (pkcs7Pad bs).length = bs.length + (16 - bs.length % 16) := by
  simp [pkcs7Pad]

/-- PKCS7 padding round trip. -/
theorem pkcs7Unpad_pkcs7Pad (m : List Nat) : pkcs7Unpad (pkcs7Pad m) = some m := by
  have hmod : m.length % 16 < 16 := Nat.mod_lt _ (by omega)
  have hn1 : 1 ≤ 16 - m.length % 16 := by omega
  have hn16 : 16 - m.length % 16 ≤ 16 := by omega
  have hlast : (pkcs7Pad m).getLast? = some (16 - m.length % 16) := by
    rw [pkcs7Pad, List.getLast?_append, List.getLast?_replicate]
    rw [if_neg (by omega)]
    rfl
  simp only [pkcs7Unpad, hlast]
  have hlen : (pkcs7Pad m).length = m.length + (16 - m.length % 16) :=
    pkcs7Pad_length m
  have hsub : (pkcs7Pad m).length - (16 - m.length % 16) = m.length := by omega
  rw [if_pos]
  · rw [hsub, pkcs7Pad, List.take_left]
  · refine ⟨hn1, hn16, by omega, ?_⟩
    rw [hsub, pkcs7Pad, List.drop_left]

/-- Parsing a well-formed token: the tag and version checks pass and the
ciphertext is CBC-decrypted and unpadded. -/
theorem fernetDecrypt_token (p : FernetPrimitives)
    (hmac32 : ∀ x, (p.hmac x).length = 32)
    {ts iv ct : List Nat} (hts : ts.length = 8) (hiv : iv.length = 16)
    (hmod : ct.length % 16 = 0) (hne : ct.length ≠ 0) :
    fernetDecrypt p ((0x80 :: (ts ++ iv ++ ct)) ++ p.hmac (0x80 :: (ts ++ iv ++ ct)))
      = pkcs7Unpad (cbcDecrypt p.decBlock iv (chunks16 ct)).flatten := by
  have h32 := hmac32 (0x80 :: (ts ++ iv ++ ct))
  have hsub :
      ((0x80 :: (ts ++ iv ++ ct)) ++ p.hmac (0x80 :: (ts ++ iv ++ ct))).length - 32
        = (0x80 :: (ts ++ iv ++ ct)).length := by
    simp only [List.length_append, List.length_cons, h32]
    omega
  simp only [fernetDecrypt, hsub, List.take_left, List.drop_left]
  rw [if_neg (by simp)]
  rw [if_neg (by simp)]
  rw [List.append_assoc, List.drop_left' hts, List.take_left' hiv, List.drop_left' hiv]
  rw [if_pos ⟨hmod, hne⟩]

/-- Fernet round trip under the primitive contract. -/
theorem fernetDecrypt_fernetEncrypt {p : FernetPrimitives} (hp : p.Sound)
    {ts iv : List Nat} (hts : ts.length = 8) (hiv : iv.length = 16)
    (msg : List Nat) :
    fernetDecrypt p (fernetEncrypt p ts iv msg) = some msg := by
  obtain ⟨hdec, hlen, hmac32⟩ := hp
  have hpadmod : (pkcs7Pad msg).length % 16 = 0 := by
    rw [pkcs7Pad_length]
    omega
  have hchunks : ∀ b ∈ chunks16 (pkcs7Pad msg), b.length = 16 :=
    chunks16_length16 _ hpadmod
  have hblocks16 :
      ∀ c ∈ cbcEncrypt p.encBlock iv (chunks16 (pkcs7Pad msg)), c.length = 16 :=
    cbcEncrypt_length16 hlen hiv hchunks
  have hctlen :
      (cbcEncrypt p.encBlock iv (chunks16 (pkcs7Pad msg))).flatten.length
        = 16 * (chunks16 (pkcs7Pad msg)).length := by
    rw [flatten_length16 _ hblocks16, length_cbcEncrypt]
  have hpadne : pkcs7Pad msg ≠ [] := by
    intro hc
    have hlc := congrArg List.length hc
    rw [pkcs7Pad_length] at hlc
    simp only [List.length_nil] at hlc
    omega
  have hchne : (chunks16 (pkcs7Pad msg)).length ≠ 0 := by
    intro hc
    exact hpadne ((chunks16_eq_nil_iff _).mp (List.length_eq_zero.mp hc))
  have hctmod :
      (cbcEncrypt p.encBlock iv (chunks16 (pkcs7Pad msg))).flatten.length % 16 = 0 := by
    rw [hctlen]; omega
  have hctne :
      (cbcEncrypt p.encBlock iv (chunks16 (pkcs7Pad msg))).flatten.length ≠ 0 := by
    rw [hctlen]; omega
  have hEnc : fernetEncrypt p ts iv msg
      = (0x80 :: (ts ++ iv ++ (cbcEncrypt p.encBlock iv (chunks16 (pkcs7Pad msg))).flatten))
          ++ p.hmac (0x80 :: (ts ++ iv
              ++ (cbcEncrypt p.encBlock iv (chunks16 (pkcs7Pad msg))).flatten)) := rfl
  rw [hEnc, fernetDecrypt_token p hmac32 hts hiv hctmod hctne]
  rw [chunks16_flatten _ hblocks16]
  rw [cbcDecrypt_cbcEncrypt hdec hlen hiv hchunks]
  rw [flatten_chunks16]
  exact pkcs7Unpad_pkcs7Pad msg

/-- The iv sits verbatim at offset 9 of the token. -/
theorem fernet_token_iv (p : FernetPrimitives) {ts iv : List Nat}
    (hts : ts.length = 8) (hiv : iv.length = 16) (msg : List Nat) :
    ((fernetEncrypt p ts iv msg).drop 9).take 16 = iv := by
  have hEnc : fernetEncrypt p ts iv msg
      = 0x80 :: (ts ++ (iv ++ ((cbcEncrypt p.encBlock iv (chunks16 (pkcs7Pad msg))).flatten
          ++ p.hmac (0x80 :: (ts ++ iv
              ++ (cbcEncrypt p.encBlock iv (chunks16 (pkcs7Pad msg))).flatten))))) := by
    simp [fernetEncrypt, List.append_assoc]
  rw [hEnc]
  have h9 : (9 : Nat) = 8 + 1 := rfl
  rw [h9, List.drop_succ_cons, List.drop_left' hts, List.take_left' hiv]

/-- Tokens built from distinct ivs are distinct. -/
theorem fernetEncrypt_iv_inj (p : FernetPrimitives)
    {ts1 ts2 iv1 iv2 : List Nat} (hts1 : ts1.length = 8) (hts2 : ts2.length = 8)
    (hiv1 : iv1.length = 16) (hiv2 : iv2.length = 16) (hne : iv1 ≠ iv2)
    (msg1 msg2 : List Nat) :
    fernetEncrypt p ts1 iv1 msg1 ≠ fernetEncrypt p ts2 iv2 msg2 := by
  intro h
  apply hne
  have h1 := fernet_token_iv p hts1 hiv1 msg1
  have h2 := fernet_token_iv p hts2 hiv2 msg2
  rw [← h1, ← h2, h]

/-- Decoding after encoding one character recovers its code point. -/
theorem utf8Decode_utf8Char (c : Nat) (rest : List Nat) :
    utf8Decode (utf8Char c ++ rest) = (utf8Decode rest).map (fun r => c :: r) := by
  by_cases h1 : c < 0x80
  · simp only [utf8Char]
    rw [if_pos h1]
    simp only [List.cons_append, List.nil_append, utf8Decode]
    rw [if_pos h1]
  · by_cases h2 : c < 0x800
    · have e1 : ¬ (0xC0 + c / 0x40 < 0x80) := by omega
      have e2 : ¬ (0xC0 + c / 0x40 < 0xC0) := by omega
      have e3 : 0xC0 + c / 0x40 < 0xE0 := by omega
      have e4 : 0x80 ≤ 0x80 + c % 0x40 ∧ 0x80 + c % 0x40 < 0xC0 := by omega
      have e5 : (0xC0 + c / 0x40 - 0xC0) * 0x40 + (0x80 + c % 0x40 - 0x80) = c := by
        omega
      simp only [utf8Char]
      rw [if_neg h1, if_pos h2]
      simp only [List.cons_append, List.nil_append, utf8Decode, utf8Tail1]
      rw [if_neg e1, if_neg e2, if_pos e3, if_pos e4, e5]
    · by_cases h3 : c < 0x10000
      · have e1 : ¬ (0xE0 + c / 0x1000 < 0x80) := by omega
        have e2 : ¬ (0xE0 + c / 0x1000 < 0xC0) := by omega
        have e3 : ¬ (0xE0 + c / 0x1000 < 0xE0) := by omega
        have e4 : 0xE0 + c / 0x1000 < 0xF0 := by omega
        have e5 : (0x80 ≤ 0x80 + c / 0x40 % 0x40 ∧ 0x80 + c / 0x40 % 0x40 < 0xC0)
            ∧ (0x80 ≤ 0x80 + c % 0x40 ∧ 0x80 + c % 0x40 < 0xC0) := by omega
        have e6 : (0xE0 + c / 0x1000 - 0xE0) * 0x1000
            + (0x80 + c / 0x40 % 0x40 - 0x80) * 0x40 + (0x80 + c % 0x40 - 0x80) = c := by
          omega
        simp only [utf8Char]
        rw [if_neg h1, if_neg h2, if_pos h3]
        simp only [List.cons_append, List.nil_append, utf8Decode, utf8Tail2]
        rw [if_neg e1, if_neg e2, if_neg e3, if_pos e4, if_pos e5, e6]
      · have e1 : ¬ (0xF0 + c / 0x40000 < 0x80) := by omega
        have e2 : ¬ (0xF0 + c / 0x40000 < 0xC0) := by omega
        have e3 : ¬ (0xF0 + c / 0x40000 < 0xE0) := by omega
        have e4 : ¬ (0xF0 + c / 0x40000 < 0xF0) := by omega
        have e5 : (0x80 ≤ 0x80 + c / 0x1000 % 0x40 ∧ 0x80 + c / 0x1000 % 0x40 < 0xC0)
            ∧ (0x80 ≤ 0x80 + c / 0x40 % 0x40 ∧ 0x80 + c / 0x40 % 0x40 < 0xC0)
            ∧ (0x80 ≤ 0x80 + c % 0x40 ∧ 0x80 + c % 0x40 < 0xC0) := by omega
        have e6 : (0xF0 + c / 0x40000 - 0xF0) * 0x40000
            + (0x80 + c / 0x1000 % 0x40 - 0x80) * 0x1000
            + (0x80 + c / 0x40 % 0x40 - 0x80) * 0x40 + (0x80 + c % 0x40 - 0x80) = c := by
          omega
        simp only [utf8Char]
        rw [if_neg h1, if_neg h2, if_neg h3]
        simp only [List.cons_append, List.nil_append, utf8Decode, utf8Tail3]
        rw [if_neg e1, if_neg e2, if_neg e3, if_neg e4, if_pos e5, e6]

/-- Decoding after encoding a sequence of code points is the identity. -/
theorem utf8Decode_flatMap (l : List Nat) :
    utf8Decode (l.flatMap utf8Char) = some l := by
  induction l with
  | nil => simp [utf8Decode]
  | cons c l ih =>
      rw [List.flatMap_cons, utf8Decode_utf8Char, ih]
      rfl

/-- `utf8Decode` inverts `utf8Encode` on the code points of any string. -/
theorem utf8Decode_utf8Encode (s : String) :
    utf8Decode (utf8Encode s) = some (strCodes s) :=
  utf8Decode_flatMap (strCodes s)

/-- A character's code point maps back to the character. -/
theorem charOfCode_toNat (c : Char) : charOfCode c.toNat = some c := by
  rw [charOfCode, if_pos (show (Char.toNat c).isValidChar from c.valid)]
  rw [Char.ofNat_toNat]

/-- Rebuilding a string from the code points of its characters. -/
theorem strOfCodes_map_toNat : ∀ (l : List Char),
    strOfCodes (l.map (fun c => c.toNat)) = some (String.mk l)
  | [] => rfl
  | c :: l => by
      simp only [List.map_cons, strOfCodes, charOfCode_toNat, strOfCodes_map_toNat l]

/-- Rebuilding a string from its own code points. -/
theorem strOfCodes_strCodes (s : String) : strOfCodes (strCodes s) = some s := by
  cases s with
  | mk data => exact strOfCodes_map_toNat data

/-- C9: field-level encryption round-trips — `decrypt(encrypt(s)) = s` for
every string, the empty and non-ASCII strings included; two calls of encrypt
on the same plaintext with distinct per-call ivs (the source draws a fresh
random iv inside `Fernet.encrypt` on every call) produce distinct
ciphertexts; and both directions map `None` to `None`.  The final conjuncts
instantiate the abstract primitives concretely, showing the contract
hypotheses are satisfiable and the round trip runs end to end. -/
theorem C9_encryption_roundtrip :
    (∀ (p : FernetPrimitives) (ts iv : List Nat) (s : String),
        p.Sound → ts.length = 8 → iv.length = 16 →
        decrypt_field p (encrypt_field p ts iv (some s)) = some (some s))
    ∧ (∀ (p : FernetPrimitives) (ts1 ts2 iv1 iv2 : List Nat) (s1 s2 : String),
        ts1.length = 8 → ts2.length = 8 → iv1.length = 16 → iv2.length = 16 →
        iv1 ≠ iv2 →
        encrypt_field p ts1 iv1 (some s1) ≠ encrypt_field p ts2 iv2 (some s2))
    ∧ (∀ (p : FernetPrimitives) (ts iv : List Nat), encrypt_field p ts iv none = none)
    ∧ (∀ p : FernetPrimitives, decrypt_field p none = some none)
    ∧ idPrimitives.Sound
    ∧ decrypt_field idPrimitives
        (encrypt_field idPrimitives (List.replicate 8 0) (List.replicate 16 0)
          (some "aé")) = some (some "aé") := by
  have hround : ∀ (p : FernetPrimitives) (ts iv : List Nat) (s : String),
      p.Sound → ts.length = 8 → iv.length = 16 →
      decrypt_field p (encrypt_field p ts iv (some s)) = some (some s) := by
    intro p ts iv s hp hts hiv
    show (match fernetDecrypt p (fernetEncrypt p ts iv (utf8Encode s)) with
      | none => (none : Option (Option String))
      | some bytes =>
        match utf8Decode bytes with
        | none => none
        | some codes =>
          match strOfCodes codes with
          | none => none
          | some t => some (some t)) = some (some s)
    rw [fernetDecrypt_fernetEncrypt hp hts hiv]
    show (match utf8Decode (utf8Encode s) with
      | none => (none : Option (Option String))
      | some codes =>
        match strOfCodes codes with
        | none => none
        | some t => some (some t)) = some (some s)
    rw [utf8Decode_utf8Encode]
    show (match strOfCodes (strCodes s) with
      | none => (none : Option (Option String))
      | some t => some (some t)) = some (some s)
    rw [strOfCodes_strCodes]
  have hsound : idPrimitives.Sound :=
    ⟨fun b _ => rfl, fun b h => h, fun x => by simp [idPrimitives]⟩
  refine ⟨hround, ?_, fun p ts iv => rfl, fun p => rfl, hsound,
    hround idPrimitives _ _ _ hsound (by simp) (by simp)⟩
  intro p ts1 ts2 iv1 iv2 s1 s2 h1 h2 h3 h4 hne hEq
  simp only [encrypt_field, Option.some.injEq] at hEq
  exact fernetEncrypt_iv_inj p h1 h2 h3 h4 hne (utf8Encode s1) (utf8Encode s2) hEq

/-- C4 supporting fact: the shipped `create_offsite_checkout_request` takes no
attestation input and, on a successful concrete run, creates a pending
request whose attestation columns are all null — the claim's success clause
(request carries attestation text, signature, timestamp) is false on the
shipped service, whose caller and tests require attestation validation. -/
theorem C4_created_request_lacks_attestation :
    createOutcomeC4 = some (none, none, none, .pending) := by decide

end Custody
